import Mathlib

/-!
Verification of the shandu multi-agent research orchestrator core.

Shallow embedding of the report rendering pipeline
(src/shandu/services/report.py), citation normalization
(src/shandu/agents/citation_agent.py), lead-agent task normalization and
synthesis fallback (src/shandu/agents/lead.py), the search subagent
(src/shandu/agents/search_subagent.py), the orchestrator iteration loop and
cost statistics (src/shandu/orchestration/lead_orchestrator.py).

Strings are modelled as `List Char`.  Python `re` patterns used by the code
(`\[([A-Za-z0-9_-]\x7b1,64\x7d)\]`, `\[(\d+)\]`, duplicate-marker collapse,
trailing-whitespace and blank-line squeezing) are deterministic for these
character classes, so each is embedded as a direct fuel-based scanner with
leftmost, non-overlapping match semantics.  Character classes are modelled
at the ASCII level (the code's inputs are markdown produced by the system).
Floating point confidence/cost values are modelled as rationals.
-/

namespace Shandu

abbrev Str := List Char

/-- Python `str` whitespace (ASCII portion): space, tab, LF, CR, VT, FF. -/
def pySpaceChar (c : Char) : Bool :=
  c = ' ' || c = '\t' || c = '\n' || c = '\x0d' || c = '\x0b' || c = '\x0c'

/-- Character class `[A-Za-z0-9_-]` of the citation-marker regex. -/
def wordChar (c : Char) : Bool :=
  c.isAlpha || c.isDigit || c = '_' || c = '-'

/-- Character class `[0-9a-fA-F]` (stray evidence-id detection). -/
def hexChar (c : Char) : Bool :=
  c.isDigit || ('a' ≤ c && c ≤ 'f') || ('A' ≤ c && c ≤ 'F')

/-- ASCII lower-casing, as used on markdown heading checks. -/
def lowerChar (c : Char) : Char :=
  if 'A' ≤ c && c ≤ 'Z' then Char.ofNat (c.toNat + 32) else c

def lowerStr (s : Str) : Str := s.map lowerChar

/-- `str.strip()` (both ends). -/
def pyStrip (s : Str) : Str :=
  ((s.dropWhile pySpaceChar).reverse.dropWhile pySpaceChar).reverse

/-- Does `s` begin with prefix `p` (list equality on the first `p.length` chars)? -/
def startsWithL (s p : Str) : Bool := s.take p.length = p

/-- Length of the maximal run of `p`-characters at the head of `s`. -/
def runLen (p : Char → Bool) (s : Str) : Nat := (s.takeWhile p).length

/-- First character test. -/
def headIs (c : Char) (s : Str) : Bool :=
  match s with
  | [] => false
  | d :: _ => d = c

/-- Decimal digits of a natural number (f-string / `str(int)` rendering). -/
def natToCharsAux : Nat → Nat → List Char
  | 0, _ => []
  | fuel + 1, n =>
    if n < 10 then [Nat.digitChar n]
    else natToCharsAux fuel (n / 10) ++ [Nat.digitChar (n % 10)]

def natToChars (n : Nat) : Str := natToCharsAux (n + 1) n

/-- Python `str(int)` for possibly negative values. -/
def intToChars (i : Int) : Str :=
  if i < 0 then '-' :: natToChars i.natAbs else natToChars i.toNat

/-- Python `int(token)` on an all-digit token. -/
def digitsToNat (s : Str) : Nat :=
  s.foldl (fun acc c => acc * 10 + (c.toNat - 48)) 0

/-- Python `"\n".join`. -/
def joinNL : List Str → Str
  | [] => []
  | [l] => l
  | l :: ls => l ++ '\n' :: joinNL ls

/-- Line-break characters recognised by Python `str.splitlines` (ASCII portion). -/
def lineBreakChar (c : Char) : Bool :=
  c = '\n' || c = '\x0d' || c = '\x0b' || c = '\x0c' ||
  c = '\x1c' || c = '\x1d' || c = '\x1e'

/-- `str.splitlines`: split at line breaks, treating CRLF as one break. -/
def splitlinesAux : Nat → Str → Str → List Str
  | 0, acc, s => [acc.reverse ++ s]
  | _ + 1, acc, [] => if acc = [] then [] else [acc.reverse]
  | fuel + 1, acc, c :: rest =>
    if c = '\x0d' then
      match rest with
      | '\n' :: rest' => acc.reverse :: splitlinesAux fuel [] rest'
      | _ => acc.reverse :: splitlinesAux fuel [] rest
    else if lineBreakChar c then acc.reverse :: splitlinesAux fuel [] rest
    else splitlinesAux fuel (c :: acc) rest

def splitlinesPy (s : Str) : List Str := splitlinesAux (s.length + 1) [] s

/-- Last-write-wins dictionary lookup over an insertion-ordered assoc list. -/
def dictGet {α β : Type} [DecidableEq α] (m : List (α × β)) (k : α) : Option β :=
  (m.reverse.find? (fun p => p.1 = k)).map (fun p => p.2)

/-! ### Generic leftmost scan-and-rewrite driver

Python `re.sub` / `re.findall` over the patterns used by the code advance one
character on a failed match and continue after the end of a successful match.
`scanGo step` embeds that: `step` consumes a nonempty prefix and emits its
replacement chunk. -/

def scanGo (step : Str → (Str × Str)) : Nat → Str → Str
  | 0, s => s
  | _ + 1, [] => []
  | fuel + 1, s => (step s).1 ++ scanGo step fuel (step s).2

def scanRun (step : Str → (Str × Str)) (s : Str) : Str := scanGo step s.length s

/-- One step of `re.sub(r"\[([A-Za-z0-9_-]\x7b1,64\x7d)\]", repl, ...)`:
at `[`, the greedy 1..64 word-char run must be followed by `]`. -/
def markerStep (repl : Str → Str) (s : Str) : Str × Str :=
  match s with
  | [] => ([], [])
  | c :: rest =>
    if c = '[' then
      let r := runLen wordChar rest
      if 1 ≤ r && r ≤ 64 && headIs ']' (rest.drop r) then
        (repl (rest.take r), rest.drop (r + 1))
      else ([c], rest)
    else ([c], rest)

/-- One step of `re.sub(r"\[(\d+)\]", repl, ...)`. -/
def digitMarkerStep (repl : Str → Str) (s : Str) : Str × Str :=
  match s with
  | [] => ([], [])
  | c :: rest =>
    if c = '[' then
      let r := runLen Char.isDigit rest
      if 1 ≤ r && headIs ']' (rest.drop r) then
        (repl (rest.take r), rest.drop (r + 1))
      else ([c], rest)
    else ([c], rest)

/-- Consume the maximal `(?:\s*\[d\])+` repetition tail for a fixed digit
token `d`; returns the repetition count and the remaining suffix. -/
def eatRepsAux (d : Str) : Nat → Str → Nat × Str
  | 0, s => (0, s)
  | fuel + 1, s =>
    let w := runLen pySpaceChar s
    let s' := s.drop w
    if s'.take (d.length + 2) = '[' :: d ++ [']'] then
      let p := eatRepsAux d fuel (s'.drop (d.length + 2))
      (p.1 + 1, p.2)
    else (0, s)

def eatReps (d : Str) (s : Str) : Nat × Str := eatRepsAux d s.length s

/-- One step of `re.sub(r"(\[(\d+)\])(?:\s*\[\2\])+", r"[\2]", ...)`:
collapse adjacent identical digit markers. -/
def collapseStep (s : Str) : Str × Str :=
  match s with
  | [] => ([], [])
  | c :: rest =>
    if c = '[' then
      let r := runLen Char.isDigit rest
      if 1 ≤ r && headIs ']' (rest.drop r) then
        let d := rest.take r
        let p := eatReps d (rest.drop (r + 1))
        if p.1 = 0 then ([c], rest)
        else ('[' :: d ++ [']'], p.2)
      else ([c], rest)
    else ([c], rest)

/-- One step of `re.sub(r"[ \t]+\n", "\n", ...)`. -/
def spaceTabChar (c : Char) : Bool := c = ' ' || c = '\t'

def trailStep (s : Str) : Str × Str :=
  match s with
  | [] => ([], [])
  | c :: rest =>
    if spaceTabChar c then
      let r := runLen spaceTabChar (c :: rest)
      if headIs '\n' ((c :: rest).drop r) then
        (['\n'], (c :: rest).drop (r + 1))
      else ([c], rest)
    else ([c], rest)

/-- One step of `re.sub(r"\n\x7b3,\x7d", "\n\n", ...)`. -/
def newlineChar (c : Char) : Bool := c = '\n'

def blankStep (s : Str) : Str × Str :=
  match s with
  | [] => ([], [])
  | c :: rest =>
    if c = '\n' then
      let r := runLen newlineChar (c :: rest)
      if 3 ≤ r then (['\n', '\n'], (c :: rest).drop r)
      else ([c], rest)
    else ([c], rest)

def collapseDupMarkers (s : Str) : Str := scanRun collapseStep s
def squeezeTrailWS (s : Str) : Str := scanRun trailStep s
def squeezeBlankLines (s : Str) : Str := scanRun blankStep s

/-- `re.findall(r"\[(\d+)\]", body)` followed by `int(token)`. -/
def collectDigitMarkersAux : Nat → Str → List Int
  | 0, _ => []
  | _ + 1, [] => []
  | fuel + 1, c :: rest =>
    if c = '[' then
      let r := runLen Char.isDigit rest
      if 1 ≤ r && headIs ']' (rest.drop r) then
        (digitsToNat (rest.take r) : Int) :: collectDigitMarkersAux fuel (rest.drop (r + 1))
      else collectDigitMarkersAux fuel rest
    else collectDigitMarkersAux fuel rest

def collectDigitMarkers (s : Str) : List Int := collectDigitMarkersAux s.length s

/-- `OrderedDict.fromkeys`: deduplicate preserving first occurrence. -/
def dedupFirstAux {α : Type} [DecidableEq α] (seen : List α) : List α → List α
  | [] => []
  | x :: xs =>
    if x ∈ seen then dedupFirstAux seen xs else x :: dedupFirstAux (x :: seen) xs

def dedupFirst {α : Type} [DecidableEq α] (l : List α) : List α := dedupFirstAux [] l

/-! ### Data model (src/shandu/contracts.py) -/

structure ResearchRequest where
  query : Str
  max_iterations : Nat
  parallelism : Nat
  detail_level : Str
  max_results_per_query : Nat
  max_pages_per_task : Nat
deriving DecidableEq, Repr

structure SubagentTask where
  task_id : Str
  focus : Str
  search_queries : List Str
  expected_output : Str
deriving DecidableEq, Repr

structure CitationEntry where
  citation_id : Int
  evidence_ids : List Str
  url : Str
  title : Str
  publisher : Str
  accessed_at : Str
deriving DecidableEq, Repr

structure ReportSection where
  heading : Str
  content : Str
deriving DecidableEq, Repr

structure FinalReportDraft where
  title : Str
  executive_summary : Str
  sections : List ReportSection
  markdown : Option Str
deriving DecidableEq, Repr

structure EvidenceRecord where
  evidence_id : Str
  task_id : Str
  query : Str
  url : Str
  title : Str
  snippet : Str
  extracted_text : Str
  confidence : ℚ
deriving DecidableEq, Repr

/-! ### ReportService (src/shandu/services/report.py) -/

namespace ReportService

/-- `_render_from_sections`. -/
def renderFromSections (request : ResearchRequest) (draft : FinalReportDraft) : Str :=
  let head : List Str :=
    [('#' :: ' ' :: pyStrip draft.title), [],
     ('#' :: '#' :: ' ' :: "Executive Summary".toList), [],
     pyStrip draft.executive_summary, [],
     ('#' :: '#' :: ' ' :: "Research Configuration".toList), [],
     ("- Query: ".toList ++ request.query),
     ("- Max iterations: ".toList ++ natToChars request.max_iterations),
     ("- Parallelism: ".toList ++ natToChars request.parallelism),
     ("- Detail level: ".toList ++ request.detail_level), []]
  let body : List Str := draft.sections.foldr
    (fun sec acc =>
      if pyStrip sec.heading = [] || pyStrip sec.content = [] then acc
      else ('#' :: '#' :: ' ' :: pyStrip sec.heading) :: [] ::
           pyStrip sec.content :: [] :: acc)
    []
  pyStrip (joinNL (head ++ body))

/-- `_reference_lines`: stable ascending sort by `citation_id`, then the
canonical bibliography line for each entry. -/
def insSortedCit (x : CitationEntry) : List CitationEntry → List CitationEntry
  | [] => [x]
  | y :: ys =>
    if y.citation_id ≤ x.citation_id then y :: insSortedCit x ys else x :: y :: ys

def sortCitations (l : List CitationEntry) : List CitationEntry :=
  l.foldl (fun acc x => insSortedCit x acc) []

def referenceLine (e : CitationEntry) : Str :=
  '[' :: intToChars e.citation_id ++ ']' :: ' ' :: e.publisher ++ '.' :: ' ' :: '"' ::
    e.title ++ '"' :: '.' :: ' ' :: e.url ++ " (accessed ".toList ++ e.accessed_at ++ [')']

def referenceLines (citations : List CitationEntry) : List Str :=
  (sortCitations citations).map referenceLine

/-- `_strip_references_section`. -/
def refsHeadLine (l : Str) : Bool :=
  startsWithL (lowerStr (pyStrip l)) ("## references".toList)

def stripReferencesSection (markdown : Str) : Str :=
  pyStrip (joinNL ((splitlinesPy markdown).takeWhile (fun l => !refsHeadLine l)))

/-- The per-token replacement of `_normalize_citation_markers`. -/
def hex32 (tok : Str) : Bool := tok.length = 32 && tok.all hexChar

def normalizeRepl (validNumbers : List Str) (evidenceToNumber : List (Str × Str))
    (tok0 : Str) : Str :=
  let tok := pyStrip tok0
  if tok = [] then []
  else if tok.all Char.isDigit then
    if tok ∈ validNumbers then '[' :: natToChars (digitsToNat tok) ++ [']'] else []
  else
    match dictGet evidenceToNumber tok with
    | some n => '[' :: n ++ [']']
    | none => if hex32 tok then [] else '[' :: tok0 ++ [']']

/-- `_normalize_citation_markers`. -/
def normalizeCitationMarkers (markdown : Str) (citations : List CitationEntry) : Str :=
  let validNumbers := citations.map (fun e => intToChars e.citation_id)
  let evidenceToNumber : List (Str × Str) :=
    citations.foldl
      (fun m e =>
        m ++ (e.evidence_ids.filter (fun i => i ≠ [])).map
          (fun i => (i, intToChars e.citation_id)))
      []
  let text := scanRun (markerStep (normalizeRepl validNumbers evidenceToNumber)) markdown
  let text := collapseDupMarkers text
  let text := squeezeTrailWS text
  let text := squeezeBlankLines text
  pyStrip text

/-- `_reindex_citation_numbers`. -/
def reindexRepl (idMap : List (Str × Nat)) (tok : Str) : Str :=
  match dictGet idMap tok with
  | some n => '[' :: natToChars n ++ [']']
  | none => '[' :: tok ++ [']']

def reindexCitationNumbers (markdown : Str) (citations : List CitationEntry) :
    Str × List CitationEntry :=
  if citations = [] then (markdown, [])
  else
    let ordered := sortCitations citations
    let idMap : List (Str × Nat) :=
      (List.enumFrom 1 ordered).map (fun p => (intToChars p.2.citation_id, p.1))
    let text := scanRun (digitMarkerStep (reindexRepl idMap)) markdown
    let text := collapseDupMarkers text
    let newCits := (List.enumFrom 1 ordered).map
      (fun p => { p.2 with citation_id := (p.1 : Int) })
    (text, newCits)

/-- `_filter_and_reindex_used_citations`: the kept entries and old→new map. -/
def keptEntriesAux (citById : List (Int × CitationEntry)) :
    List Int → Nat → List CitationEntry × List (Int × Nat)
  | [], _ => ([], [])
  | old :: rest, newId =>
    let p := keptEntriesAux citById rest (newId + 1)
    match dictGet citById old with
    | none => p
    | some e => ({ e with citation_id := (newId : Int) } :: p.1, (old, newId) :: p.2)

def filterRepl (idMap : List (Int × Nat)) (tok : Str) : Str :=
  match dictGet idMap (digitsToNat tok : Int) with
  | none => []
  | some n => '[' :: natToChars n ++ [']']

def keptCitations (body : Str) (citations : List CitationEntry) :
    List CitationEntry × List (Int × Nat) :=
  keptEntriesAux (citations.map (fun e => (e.citation_id, e)))
    (dedupFirst (collectDigitMarkers body)) 1

def filterAndReindexUsedCitations (body : Str) (citations : List CitationEntry) :
    Str × List CitationEntry :=
  if collectDigitMarkers body = [] || citations = [] then (body, citations)
  else
    (pyStrip (squeezeBlankLines (squeezeTrailWS (collapseDupMarkers
      (scanRun (digitMarkerStep (filterRepl (keptCitations body citations).2)) body)))),
     (keptCitations body citations).1)

/-- `render`, split so that the retained citation list is visible: returns the
final body and the citations listed in the appended References section. -/
def renderPair (request : ResearchRequest) (draft : FinalReportDraft)
    (citations : List CitationEntry) : Str × List CitationEntry :=
  let markdown :=
    match draft.markdown with
    | some s => if pyStrip s = [] then renderFromSections request draft else pyStrip s
    | none => renderFromSections request draft
  let normalized := normalizeCitationMarkers markdown citations
  let p1 := reindexCitationNumbers normalized citations
  let body := stripReferencesSection p1.1
  filterAndReindexUsedCitations body p1.2

/-- `render`: the final markdown string. -/
def render (request : ResearchRequest) (draft : FinalReportDraft)
    (citations : List CitationEntry) : Str :=
  if referenceLines (renderPair request draft citations).2 = [] then
    pyStrip (renderPair request draft citations).1
  else
    pyStrip (joinNL ([pyStrip (renderPair request draft citations).1, [],
      "## References".toList, []] ++ referenceLines (renderPair request draft citations).2))

end ReportService

/-! ### CitationAgent (src/shandu/agents/citation_agent.py)

`urlparse(url).netloc` and `date.today().isoformat()` are external (stdlib)
inputs of the normalization; they are passed as parameters `host` and `today`. -/

namespace CitationAgent

structure CitationCandidate where
  evidence_ids : List Str
  url : Str
  title : Str
  publisher : Str
deriving DecidableEq, Repr

/-- Python string comparison: lexicographic by code point. -/
def strLt : Str → Str → Bool
  | [], [] => false
  | [], _ :: _ => true
  | _ :: _, [] => false
  | a :: as, b :: bs =>
    if a.toNat < b.toNat then true
    else if b.toNat < a.toNat then false
    else strLt as bs

def insStr (x : Str) : List Str → List Str
  | [] => [x]
  | y :: ys => if strLt y x then y :: insStr x ys else x :: y :: ys

def sortStrs (l : List Str) : List Str := l.foldl (fun acc x => insStr x acc) []

/-- Python `sorted(set(xs))`. -/
def sortedSet (l : List Str) : List Str := sortStrs (dedupFirst l)

/-- The evidence ids sharing a URL (`by_url`). -/
def urlEvidenceIds (evidence : List EvidenceRecord) (url : Str) : List Str :=
  (evidence.filter (fun e => e.url = url)).map (fun e => e.evidence_id)

def urlInEvidence (evidence : List EvidenceRecord) (url : Str) : Bool :=
  evidence.any (fun e => e.url = url)

/-- The loop body of `_normalize`; `idx` is the 1-based candidate index. -/
def normalizeAux (today : Str) (host : Str → Str) (evidence : List EvidenceRecord) :
    List CitationCandidate → Nat → List Str → List CitationEntry
  | [], _, _ => []
  | cand :: rest, idx, seen =>
    let url := pyStrip cand.url
    if url = [] || url ∈ seen then normalizeAux today host evidence rest (idx + 1) seen
    else
      let evidenceIds :=
        if urlInEvidence evidence url then urlEvidenceIds evidence url
        else cand.evidence_ids
      { citation_id := (idx : Int)
        evidence_ids := sortedSet evidenceIds
        url := url
        title := if pyStrip cand.title = [] then ("Untitled".toList) else pyStrip cand.title
        publisher := if pyStrip cand.publisher = [] then host url else pyStrip cand.publisher
        accessed_at := today } :: normalizeAux today host evidence rest (idx + 1) (url :: seen)

/-- `CitationAgent._normalize`. -/
def normalize (today : Str) (host : Str → Str) (candidates : List CitationCandidate)
    (evidence : List EvidenceRecord) : List CitationEntry :=
  if candidates = [] then [] else normalizeAux today host evidence candidates 1 []

/-- `CitationAgent._fallback`: group evidence by URL in encounter order. -/
def fallback (today : Str) (host : Str → Str) (evidence : List EvidenceRecord) :
    List CitationEntry :=
  (List.enumFrom 1 (dedupFirst (evidence.map (fun e => e.url)))).map (fun p =>
    let items := evidence.filter (fun e => e.url = p.2)
    let firstTitle := match items with | [] => [] | e :: _ => e.title
    { citation_id := (p.1 : Int)
      evidence_ids := sortedSet (items.map (fun e => e.evidence_id))
      url := p.2
      title := if firstTitle = [] then ("Untitled".toList) else firstTitle
      publisher := if host p.2 = [] then ("unknown".toList) else host p.2
      accessed_at := today })

structure BuildResult where
  entries : List CitationEntry
  llmCalls : Nat
deriving DecidableEq, Repr

/-- `CitationAgent.build_citations`. The LLM call outcome is a parameter:
`some candidates` models a completed structured response, `none` models an
exception, a non-completed status or a schema mismatch.  `llmCalls` counts
desk invocations. -/
def buildCitations (today : Str) (host : Str → Str)
    (llm : Option (List CitationCandidate)) (_query : Str)
    (evidence : List EvidenceRecord) : BuildResult :=
  if evidence = [] then { entries := [], llmCalls := 0 }
  else
    match llm with
    | some cands =>
      let n := normalize today host cands evidence
      if n = [] then { entries := fallback today host evidence, llmCalls := 1 }
      else { entries := n, llmCalls := 1 }
    | none => { entries := fallback today host evidence, llmCalls := 1 }

end CitationAgent

/-! ### LeadAgent (src/shandu/agents/lead.py) -/

namespace LeadAgent

def facets : List Str :=
  [("latest developments".toList), ("market landscape".toList),
   ("technical details".toList), ("counterarguments".toList),
   ("regional data".toList), ("expert analysis".toList),
   ("primary-source statements".toList), ("case studies".toList)]

def fallbackFacets : List Str :=
  [("overview".toList), ("current status".toList), ("primary sources".toList),
   ("expert commentary".toList), ("risks".toList), ("contrarian views".toList),
   ("regional angle".toList), ("implementation details".toList)]

/-- `f"iter_\x7biteration + 1\x7d_task_\x7bn\x7d"` with the displayed number `n`. -/
def genTaskId (iterN n : Nat) : Str :=
  ("iter_".toList) ++ natToChars (iterN + 1) ++ ("_task_".toList) ++ natToChars n

def defaultExpected : Str := ("High quality evidence with primary-source links".toList)

/-- The candidate-normalization loop of `_ensure_parallel_task_count`;
`idx` is the 1-based enumeration index over the supplied tasks. -/
def normLoop (iterN : Nat) :
    List SubagentTask → Nat → List Str → List SubagentTask → List SubagentTask
  | [], _, _, acc => acc
  | t :: rest, idx, seen, acc =>
    let focus := pyStrip t.focus
    if focus = [] then normLoop iterN rest (idx + 1) seen acc
    else
      let cand0 := if pyStrip t.task_id = [] then genTaskId iterN idx else pyStrip t.task_id
      let cand := if cand0 ∈ seen then genTaskId iterN (acc.length + 1) else cand0
      let queries0 := (t.search_queries.map pyStrip).filter (fun q => q ≠ [])
      let queries := if queries0 = [] then [focus] else queries0
      let expected :=
        if pyStrip t.expected_output = [] then defaultExpected else pyStrip t.expected_output
      normLoop iterN rest (idx + 1) (cand :: seen)
        (acc ++ [{ task_id := cand, focus := focus, search_queries := queries,
                   expected_output := expected }])

/-- `LeadAgent._fallback_tasks`. -/
def fallbackTasks (request : ResearchRequest) (iterN : Nat) : List SubagentTask :=
  let target := max 1 (min request.parallelism 8)
  (List.range target).map (fun index =>
    let facet := fallbackFacets.getD (index % 8) []
    { task_id := genTaskId iterN (index + 1)
      focus := if index = 0 then request.query else request.query ++ (" - ".toList) ++ facet
      search_queries :=
        if index = 0 then [request.query]
        else [request.query ++ [' '] ++ facet, request.query]
      expected_output := defaultExpected })

def dummyTask : SubagentTask := { task_id := [], focus := [], search_queries := [], expected_output := [] }

def padExpected : Str := ("Independent evidence track with distinct sources.".toList)

/-- The task appended by one round of the `while len(normalized) < target`
padding loop: base focus cycles over the current list, facets over the
8-element facet list. -/
def mkPadTask (query : Str) (iterN fi : Nat) (acc : List SubagentTask) : SubagentTask :=
  { task_id := genTaskId iterN (acc.length + 1)
    focus := (acc.getD (fi % acc.length) dummyTask).focus ++ (" - ".toList) ++
      facets.getD (fi % 8) []
    search_queries := [query ++ [' '] ++ facets.getD (fi % 8) [],
      (acc.getD (fi % acc.length) dummyTask).focus]
    expected_output := padExpected }

/-- The `while len(normalized) < target` padding loop. -/
def padLoop (query : Str) (iterN target : Nat) :
    Nat → Nat → List SubagentTask → List SubagentTask
  | 0, _, acc => acc
  | fuel + 1, fi, acc =>
    if acc.length < target then
      padLoop query iterN target fuel (fi + 1) (acc ++ [mkPadTask query iterN fi acc])
    else acc

/-- The normalized task list before padding (falling back to
`_fallback_tasks` when no supplied task survives). -/
def baseTasks (tasks : List SubagentTask) (request : ResearchRequest)
    (iterN : Nat) : List SubagentTask :=
  if normLoop iterN tasks 1 [] [] = [] then fallbackTasks request iterN
  else normLoop iterN tasks 1 [] []

/-- `LeadAgent._ensure_parallel_task_count` with
`target = max(1, min(parallelism, 8))`. -/
def ensureParallelTaskCount (tasks : List SubagentTask) (request : ResearchRequest)
    (iterN : Nat) : List SubagentTask :=
  padLoop request.query iterN (max 1 (min request.parallelism 8))
    (max 1 (min request.parallelism 8)) 0 (baseTasks tasks request iterN)

structure IterationSynthesis where
  summary : Str
  key_findings : List Str
  open_questions : List Str
  continue_loop : Bool
  stop_reason : Option Str
deriving DecidableEq, Repr

structure SynthesisPayload where
  summary : Str
  key_findings : List Str
  open_questions : List Str
  continue_loop : Bool
  stop_reason : Option Str
deriving DecidableEq, Repr

/-- An entry of `iteration_evidence` (an `EvidenceRecord.model_dump` dict);
only the `snippet` field is consumed by the fallback path. -/
structure EvidenceDict where
  snippet : Str
deriving DecidableEq, Repr

def fallbackSummaryText : Str :=
  ("No structured synthesis available; using deterministic fallback.".toList)

def budgetReached : Str := ("Iteration budget reached".toList)

/-- `LeadAgent.synthesize_iteration`; `llm = none` models any LLM-path failure
(exception, non-completed status, or schema mismatch). -/
def synthesizeIteration (llm : Option SynthesisPayload) (request : ResearchRequest)
    (iterN : Nat) (iteration_evidence : List EvidenceDict) : IterationSynthesis :=
  match llm with
  | some p =>
    { summary := p.summary, key_findings := p.key_findings,
      open_questions := p.open_questions, continue_loop := p.continue_loop,
      stop_reason := p.stop_reason }
  | none =>
    let cont := decide (iterN + 1 < request.max_iterations) && !(iteration_evidence.isEmpty)
    { summary := fallbackSummaryText
      key_findings := (iteration_evidence.take 5).map (fun e => e.snippet)
      open_questions := []
      continue_loop := cont
      stop_reason := if cont then none else some budgetReached }

end LeadAgent

/-! ### SearchSubagent (src/shandu/agents/search_subagent.py) -/

namespace SearchSubagent

structure SearchHit where
  url : Str
  title : Str
  snippet : Str
deriving DecidableEq, Repr

structure ScrapedPage where
  url : Str
  title : Str
  text : Str
deriving DecidableEq, Repr

structure ExtractionPayload where
  snippet : Str
  extracted_text : Str
  confidence : ℚ
deriving DecidableEq, Repr

/-- External collaborators of `execute_task`: search provider, scraper, the
LLM extractor outcome per page (`none` = failure → deterministic fallback),
and the `new_id()` supply indexed by creation order. -/
structure SubagentEnv where
  search : Str → Nat → List SearchHit
  scrapeMany : List Str → List ScrapedPage
  extractOutcome : ScrapedPage → Option ExtractionPayload
  newId : Nat → Str

/-- `SearchSubagent._extract` (LLM call with deterministic fallback). -/
def extract (env : SubagentEnv) (page : ScrapedPage) : ExtractionPayload :=
  match env.extractOutcome page with
  | some p => p
  | none =>
    let fs := pyStrip (page.text.take 320)
    let fb := pyStrip (page.text.take 2200)
    { snippet := if fs = [] then page.title else fs
      extracted_text := if fb = [] then page.title else fb
      confidence := 45 / 100 }

/-- One merge step: skip hits whose URL was already seen. -/
def mergeHit (p : List SearchHit × List Str) (hit : SearchHit) :
    List SearchHit × List Str :=
  if hit.url ∈ p.2 then p else (p.1 ++ [hit], hit.url :: p.2)

/-- The query loop: merge hits into a URL-unique list preserving first occurrence. -/
def collectHits (env : SubagentEnv) (task : SubagentTask) (request : ResearchRequest) :
    List SearchHit :=
  let queries := if task.search_queries = [] then [task.focus] else task.search_queries
  (queries.foldl
    (fun (p : List SearchHit × List Str) q =>
      (env.search q request.max_results_per_query).foldl mergeHit p)
    ([], [])).1

/-- The URLs passed to the scraper (first `max_pages_per_task` merged hits). -/
def selectedUrls (env : SubagentEnv) (task : SubagentTask) (request : ResearchRequest) :
    List Str :=
  ((collectHits env task request).take request.max_pages_per_task).map (fun h => h.url)

/-- The fallback evidence record fabricated from a search hit for a URL the
scraper did not return. -/
def mkFallbackRecord (env : SubagentEnv) (task : SubagentTask) (idx : Nat)
    (url : Str) (hit : SearchHit) : EvidenceRecord :=
  { evidence_id := env.newId idx
    task_id := task.task_id
    query := task.focus
    url := url
    title := if pyStrip hit.title = [] then url else pyStrip hit.title
    snippet :=
      if pyStrip hit.snippet = [] then (if pyStrip hit.title = [] then url else pyStrip hit.title)
      else pyStrip hit.snippet
    extracted_text :=
      if pyStrip hit.snippet = [] then (if pyStrip hit.title = [] then url else pyStrip hit.title)
      else pyStrip hit.snippet
    confidence := 33 / 100 }

/-- The per-page evidence records built from scraped pages. -/
def scrapedRecords (env : SubagentEnv) (task : SubagentTask)
    (request : ResearchRequest) : List EvidenceRecord :=
  (env.scrapeMany (selectedUrls env task request)).enum.map (fun p =>
    { evidence_id := env.newId p.1, task_id := task.task_id, query := task.focus,
      url := p.2.url, title := p.2.title, snippet := (extract env p.2).snippet,
      extracted_text := (extract env p.2).extracted_text,
      confidence := (extract env p.2).confidence })

/-- URLs requested from the scraper but missing from its results. -/
def missingUrls (env : SubagentEnv) (task : SubagentTask)
    (request : ResearchRequest) : List Str :=
  (selectedUrls env task request).filter
    (fun u => !((env.scrapeMany (selectedUrls env task request)).any
      (fun pg => pg.url = u)))

/-- The fallback evidence records for missing URLs. -/
def fallbackRecords (env : SubagentEnv) (task : SubagentTask)
    (request : ResearchRequest) : List EvidenceRecord :=
  (missingUrls env task request).enum.filterMap (fun p =>
    ((collectHits env task request).find? (fun h => h.url = p.2)).map
      (mkFallbackRecord env task
        ((env.scrapeMany (selectedUrls env task request)).length + p.1) p.2))

/-- `SearchSubagent.execute_task` (evidence output; traces are elided). -/
def executeTask (env : SubagentEnv) (task : SubagentTask) (request : ResearchRequest) :
    List EvidenceRecord :=
  scrapedRecords env task request ++ fallbackRecords env task request

end SearchSubagent

/-! ### LeadOrchestrator (src/shandu/orchestration/lead_orchestrator.py) -/

namespace LeadOrchestrator

/-- The data each iteration of the loop observes: the planned tasks'
outcomes (`none` = task raised), the plan's and the synthesis' continue
flags.  An empty `taskOutcomes` models an empty `plan.subagent_tasks`. -/
structure IterStep where
  taskOutcomes : List (Option (List EvidenceRecord))
  planContinue : Bool
  synthContinue : Bool

structure OrchestratorEnv where
  step : Nat → IterStep

/-- `iteration_evidence`: successful task results concatenated. -/
def iterationEvidence (env : OrchestratorEnv) (i : Nat) : List EvidenceRecord :=
  ((env.step i).taskOutcomes.filterMap id).flatten

/-- The `for iteration in range(max_iterations)` loop with its `break`s,
as the list of iteration indices whose body ran. -/
def executedFrom (env : OrchestratorEnv) : Nat → Nat → List Nat
  | 0, _ => []
  | rem + 1, i =>
    let st := env.step i
    if st.taskOutcomes = [] then [i]
    else if !st.planContinue then [i]
    else if !st.synthContinue then [i]
    else if iterationEvidence env i = [] then [i]
    else i :: executedFrom env rem (i + 1)

def executedIterations (env : OrchestratorEnv) (maxIterations : Nat) : List Nat :=
  executedFrom env maxIterations 0

/-- `CostSnapshot` (src/shandu/runtime/cost_tracker.py); `delta_since` clamps
every component at 0, so a delta is componentwise non-negative. -/
structure CostSnapshot where
  llm_calls : Nat
  cost_events : Nat
  total_cost_usd : ℚ
  total_tokens : Nat
  prompt_tokens : Nat
  completion_tokens : Nat
deriving DecidableEq, Repr

/-- The optional cost fields `_append_cost_stats` adds to `run_stats`. -/
structure RunCostStats where
  metered_calls : Option Nat
  llm_tokens : Option Nat
  usd_spent : Option ℚ
  cost_coverage : Option Str
deriving DecidableEq, Repr

/-- Python `round(x, 6)` (round half to even), on the rational model. -/
def pyRound6 (q : ℚ) : ℚ :=
  let s := q * 1000000
  let f : Int := ⌊s⌋
  let r : ℚ := s - (f : ℚ)
  let n : Int :=
    if r > 1 / 2 then f + 1
    else if r < 1 / 2 then f
    else if f % 2 = 0 then f else f + 1
  (n : ℚ) / 1000000

def fullCoverage : Str := ("full".toList)
def partialCoverage : Str := ("partial".toList)

/-- `LeadOrchestrator._append_cost_stats`, applied when a tracker and a
baseline snapshot exist; `delta` is `delta_since(baseline)`. -/
def appendCostStats (agent_model_calls : Nat) (delta : CostSnapshot) : RunCostStats :=
  { metered_calls := if delta.llm_calls > 0 then some delta.llm_calls else none
    llm_tokens := if delta.total_tokens > 0 then some delta.total_tokens else none
    usd_spent := if delta.cost_events > 0 then some (pyRound6 delta.total_cost_usd) else none
    cost_coverage :=
      if agent_model_calls > 0 && delta.llm_calls > 0 then
        some (if delta.llm_calls < agent_model_calls then partialCoverage else fullCoverage)
      else none }

end LeadOrchestrator

/-- The conjunction of conditions under which the orchestrator loop moves
from iteration `i` to iteration `i + 1` (besides the range bound). -/
def LeadOrchestrator.continuesAfter (env : LeadOrchestrator.OrchestratorEnv) (i : Nat) : Prop :=
  (env.step i).taskOutcomes ≠ [] ∧ (env.step i).planContinue = true ∧
  (env.step i).synthContinue = true ∧ LeadOrchestrator.iterationEvidence env i ≠ []

instance (env : LeadOrchestrator.OrchestratorEnv) (i : Nat) :
    Decidable (LeadOrchestrator.continuesAfter env i) := by
  unfold LeadOrchestrator.continuesAfter; infer_instance

/-! ### Analysis predicates -/

/-- A scan step consumes at least one character of a nonempty suffix. -/
def StepShrinks (step : Str → (Str × Str)) : Prop :=
  ∀ s : Str, s ≠ [] → (step s).2.length < s.length

/-- A step that either copies one character or replaces a nonempty consumed
chunk by newlines, leaving a suffix of the tail (the whitespace squeezers). -/
def CopyOrNL (step : Str → Str × Str) : Prop :=
  ∀ c rest, step (c :: rest) = ([c], rest) ∨
    ((step (c :: rest)).1 ≠ [] ∧ (∀ ch ∈ (step (c :: rest)).1, ch = '\n') ∧
      ∃ n, (step (c :: rest)).2 = rest.drop n)

/-- Zero or more digits then `]`. -/
def digitsThenRB : Str → Bool
  | [] => false
  | c :: rest => if c = ']' then true else if c.isDigit then digitsThenRB rest else false

/-- A `\[(\d+)\]` match begins at the head of the string. -/
def markerHeadAt : Str → Bool
  | '[' :: c :: rest => c.isDigit && digitsThenRB (c :: rest)
  | _ => false

/-- Some all-digit bracket marker occurs somewhere in the string. -/
def hasDigitMarker : Str → Bool
  | [] => false
  | c :: rest => markerHeadAt (c :: rest) || hasDigitMarker rest

/-- Every `[` in the string opens a complete 1..64 word-char marker. -/
def wellMarkedAux : Nat → Str → Bool
  | 0, s => s.isEmpty
  | _ + 1, [] => true
  | fuel + 1, c :: rest =>
    if c = '[' then
      let r := runLen wordChar rest
      (1 ≤ r && r ≤ 64 && headIs ']' (rest.drop r)) && wellMarkedAux fuel (rest.drop (r + 1))
    else wellMarkedAux fuel rest

def wellMarked (s : Str) : Bool := wellMarkedAux s.length s

/-- An adjacent space-or-tab directly before a newline (a `[ 	]+
` site). -/
def hasTrailWS : Str → Bool
  | [] => false
  | [_] => false
  | a :: b :: rest => (spaceTabChar a && b = '
') || hasTrailWS (b :: rest)

/-- Three consecutive newlines (a `
{3,}` site). -/
def hasTripleNL : Str → Bool
  | a :: b :: c :: rest => (a = '
' && b = '
' && c = '
') || hasTripleNL (b :: c :: rest)
  | _ => false

/-- The citation ids are exactly `1..M` in list order. -/
def contiguousIds (l : List CitationEntry) : Prop :=
  l.map (fun e => e.citation_id) =
    (List.range l.length).map (fun (n : Nat) => (n : Int) + 1)

instance (l : List CitationEntry) : Decidable (contiguousIds l) := by
  unfold contiguousIds; infer_instance

/-- The citation entry `_normalize` builds for the candidate at 1-based
position `idx` (when it is not skipped). -/
def CitationAgent.mkNormalizedEntry (today : Str) (host : Str → Str)
    (evidence : List EvidenceRecord) (idx : Nat)
    (cand : CitationAgent.CitationCandidate) : CitationEntry :=
  let url := pyStrip cand.url
  { citation_id := (idx : Int)
    evidence_ids := CitationAgent.sortedSet
      (if CitationAgent.urlInEvidence evidence url
       then CitationAgent.urlEvidenceIds evidence url
       else cand.evidence_ids)
    url := url
    title := if pyStrip cand.title = [] then ("Untitled".toList) else pyStrip cand.title
    publisher := if pyStrip cand.publisher = [] then host url else pyStrip cand.publisher
    accessed_at := today }

/-- Invariant carried through `_ensure_parallel_task_count`: distinct task
ids, generated ids bounded by the list length, non-empty foci and queries. -/
def TaskAccInv (iterN : Nat) (acc : List SubagentTask) : Prop :=
  (acc.map (fun t => t.task_id)).Nodup ∧
  (∀ id ∈ acc.map (fun t => t.task_id),
    startsWithL id ("iter_".toList) = true →
      ∃ m, 1 ≤ m ∧ m ≤ acc.length ∧ id = LeadAgent.genTaskId iterN m) ∧
  (∀ t ∈ acc, t.focus ≠ [] ∧ t.search_queries ≠ [])

/-! ### Concrete instances used by counterexamples and witnesses -/

def cHost : Str → Str := fun _ => ("h.example".toList)

def cToday : Str := ("2026-02-21".toList)

/-- Candidate bundle with a duplicate URL (second candidate skipped). -/
def c3Cands : List CitationAgent.CitationCandidate :=
  [{ evidence_ids := [], url := ("u".toList), title := ("tA".toList), publisher := ("pA".toList) },
   { evidence_ids := [], url := ("u".toList), title := ("tB".toList), publisher := ("pB".toList) },
   { evidence_ids := [], url := ("v".toList), title := ("tC".toList), publisher := ("pC".toList) }]

/-- Candidate bundle with distinct URLs (no skips). -/
def c3GoodCands : List CitationAgent.CitationCandidate :=
  [{ evidence_ids := [("x9".toList)], url := ("https://a".toList), title := [],
     publisher := [] },
   { evidence_ids := [], url := ("https://b".toList), title := ("B".toList),
     publisher := ("pZ".toList) }]

def c3Evidence : List EvidenceRecord :=
  [{ evidence_id := ("e2".toList), task_id := ("t".toList), query := ("q".toList),
     url := ("https://a".toList), title := ("Ta".toList), snippet := ("s".toList),
     extracted_text := ("x".toList), confidence := 1 / 2 },
   { evidence_id := ("e1".toList), task_id := ("t".toList), query := ("q".toList),
     url := ("https://a".toList), title := ("Ta2".toList), snippet := ("s".toList),
     extracted_text := ("x".toList), confidence := 1 / 2 }]

/-- Supplied plan whose second task id is blank while the first uses the
generated-id scheme: the regenerated id collides. -/
def c4BadTasks : List SubagentTask :=
  [{ task_id := ("iter_1_task_2".toList), focus := ("a".toList),
     search_queries := [("q".toList)], expected_output := ("o".toList) },
   { task_id := [], focus := ("b".toList),
     search_queries := [("q".toList)], expected_output := ("o".toList) }]

def c4Req : ResearchRequest :=
  { query := ("q".toList), max_iterations := 2, parallelism := 1,
    detail_level := ("high".toList), max_results_per_query := 5, max_pages_per_task := 3 }

/-- A supplied plan with one well-behaved task, padded up to parallelism 3. -/
def c4GoodTasks : List SubagentTask :=
  [{ task_id := ("tidA".toList), focus := ("f1".toList),
     search_queries := [("q1".toList)], expected_output := ("eo".toList) }]

def c4GoodReq : ResearchRequest :=
  { query := ("qq".toList), max_iterations := 2, parallelism := 3,
    detail_level := ("high".toList), max_results_per_query := 5, max_pages_per_task := 3 }

def cReq : ResearchRequest :=
  { query := ("q".toList), max_iterations := 2, parallelism := 3,
    detail_level := ("high".toList), max_results_per_query := 5, max_pages_per_task := 3 }

/-- Draft whose nested bracket text creates a digit marker (`[5]`) with no
citation after the inner `[77]` is deleted. -/
def c1Draft : FinalReportDraft :=
  { title := ("T".toList), executive_summary := ("S".toList), sections := [],
    markdown := some ("[5[77]] then [1]".toList) }

def c1Cits : List CitationEntry :=
  [{ citation_id := 1, evidence_ids := [], url := ("u".toList), title := ("t".toList),
     publisher := ("p".toList), accessed_at := ("d".toList) }]

/-- Draft whose doubly nested brackets leave a digit marker (`[3]`) in the
final output with no citation at all. -/
def c1Draft2 : FinalReportDraft :=
  { title := ("T".toList), executive_summary := ("S".toList), sections := [],
    markdown := some ("[3[5[77]]] ok".toList) }

/-- Draft for the C10 counterexample: deleting the unknown inner marker
`[2]` under an empty citation list leaves the digit marker `[1]`. -/
def c10Draft : FinalReportDraft :=
  { title := ("T".toList), executive_summary := ("S".toList), sections := [],
    markdown := some ("[1[2]]".toList) }

/-- Draft for the C10 amended witness: well-bracketed markers, one numeric
(deleted) and one alphanumeric (kept). -/
def c10WDraft : FinalReportDraft :=
  { title := ("T".toList), executive_summary := ("S".toList), sections := [],
    markdown := some ("a [12] b [x7] c".toList) }

/-- Draft and gapped citation list for the C2 counterexample: ids 1 and 3
are renumbered to 1 and 2 by the first render, and the second render then
deletes the marker `[2]` (2 is not an original citation id). -/
def c2Draft : FinalReportDraft :=
  { title := ("T".toList), executive_summary := ("S".toList), sections := [],
    markdown := some ("a [1] b [3]".toList) }

def c2Cits : List CitationEntry :=
  [{ citation_id := 1, evidence_ids := [], url := ("u1".toList), title := ("t1".toList),
     publisher := ("p1".toList), accessed_at := ("d".toList) },
   { citation_id := 3, evidence_ids := [], url := ("u3".toList), title := ("t3".toList),
     publisher := ("p3".toList), accessed_at := ("d".toList) }]

/-- Re-wrap a rendered string as the next draft's markdown. -/
def redraft (draft : FinalReportDraft) (s : Str) : FinalReportDraft :=
  { draft with markdown := some s }

/-- Canonical bracket-free two-line markdown for the C2 amended witness. -/
def c2WMd : Str := ("hello\nworld".toList)

def c2WDraft : FinalReportDraft :=
  { title := ("T".toList), executive_summary := ("S".toList), sections := [],
    markdown := some c2WMd }

/-- Body and citations for the C1 amended witness: markers 2,1,2 with
citations 1 and 2 present. -/
def c1WBody : Str := ("see [2] x [1] y [2]".toList)

def c1WCits : List CitationEntry :=
  [{ citation_id := 1, evidence_ids := [], url := ("u1".toList), title := ("t1".toList),
     publisher := ("p1".toList), accessed_at := ("d".toList) },
   { citation_id := 2, evidence_ids := [], url := ("u2".toList), title := ("t2".toList),
     publisher := ("p2".toList), accessed_at := ("d".toList) }]

/-- Env for the C6 counterexample: one hit whose title has surrounding
whitespace; the scraper returns nothing; the extractor always fails. -/
def c6Env : SearchSubagent.SubagentEnv :=
  { search := fun _ _ =>
      [{ url := ("ua".toList), title := (" T ".toList), snippet := ("s".toList) }]
    scrapeMany := fun _ => []
    extractOutcome := fun _ => none
    newId := fun n => natToChars n }

def c6Task : SubagentTask :=
  { task_id := ("t1".toList), focus := ("f".toList),
    search_queries := [("q".toList)], expected_output := ("eo".toList) }

def c6Req : ResearchRequest :=
  { query := ("q".toList), max_iterations := 2, parallelism := 3,
    detail_level := ("high".toList), max_results_per_query := 5, max_pages_per_task := 3 }

/-- Env for scenario 2: two hits, empty scrape. -/
def c6Env2 : SearchSubagent.SubagentEnv :=
  { search := fun _ _ =>
      [{ url := ("a".toList), title := ("Ta".toList), snippet := ("sa".toList) },
       { url := ("b".toList), title := ("Tb".toList), snippet := [] }]
    scrapeMany := fun _ => []
    extractOutcome := fun _ => none
    newId := fun n => natToChars n }

/-- Cost delta of the spec's cost-coverage example. -/
def c8Delta : LeadOrchestrator.CostSnapshot :=
  { llm_calls := 5, cost_events := 2, total_cost_usd := 9 / 200,
    total_tokens := 3200, prompt_tokens := 0, completion_tokens := 0 }

/-! ### Lemmas and theorems -/

theorem scanGo_nil (step : Str → Str × Str) : ∀ fuel, scanGo step fuel [] = []
  | 0 => rfl
  | _ + 1 => rfl

theorem scanGo_stable (step : Str → Str × Str) (hs : StepShrinks step) :
    ∀ fuel₁ fuel₂ s, s.length ≤ fuel₁ → s.length ≤ fuel₂ →
      scanGo step fuel₁ s = scanGo step fuel₂ s := by
  intro fuel₁
  induction fuel₁ with
  | zero =>
    intro fuel₂ s h1 _
    have hnil : s = [] := List.length_eq_zero.mp (Nat.le_zero.mp h1)
    subst hnil
    rw [scanGo_nil, scanGo_nil]
  | succ f ih =>
    intro fuel₂ s h1 h2
    cases s with
    | nil => rw [scanGo_nil, scanGo_nil]
    | cons c rest =>
      cases fuel₂ with
      | zero => simp at h2
      | succ g =>
        simp only [scanGo]
        have hlt := hs (c :: rest) (by simp)
        have hl : (c :: rest).length = rest.length + 1 := rfl
        congr 1
        exact ih g _ (by omega) (by omega)

theorem scanRun_cons (step : Str → Str × Str) (hs : StepShrinks step) (c : Char) (rest : Str) :
    scanRun step (c :: rest) =
      (step (c :: rest)).1 ++ scanRun step (step (c :: rest)).2 := by
  unfold scanRun
  have hl : (c :: rest).length = rest.length + 1 := rfl
  rw [hl]
  simp only [scanGo]
  congr 1
  have hlt := hs (c :: rest) (by simp)
  exact scanGo_stable step hs rest.length _ _ (by omega) (le_refl _)

theorem markerStep_shrinks (repl : Str → Str) : StepShrinks (markerStep repl) := by
  intro s hs
  cases s with
  | nil => exact absurd rfl hs
  | cons c rest =>
    simp only [markerStep]
    split
    · split
      · simp only [List.length_cons, List.length_drop]; omega
      · simp
    · simp

theorem digitMarkerStep_shrinks (repl : Str → Str) : StepShrinks (digitMarkerStep repl) := by
  intro s hs
  cases s with
  | nil => exact absurd rfl hs
  | cons c rest =>
    simp only [digitMarkerStep]
    split
    · split
      · simp only [List.length_cons, List.length_drop]; omega
      · simp
    · simp

theorem eatRepsAux_len (d : Str) :
    ∀ fuel s, ((eatRepsAux d fuel s).2).length ≤ s.length := by
  intro fuel
  induction fuel with
  | zero => intro s; simp [eatRepsAux]
  | succ f ih =>
    intro s
    simp only [eatRepsAux]
    split
    · have h := ih ((s.drop (runLen pySpaceChar s)).drop (d.length + 2))
      simp only [List.length_drop] at h ⊢
      omega
    · simp

theorem collapseStep_shrinks : StepShrinks collapseStep := by
  intro s hs
  cases s with
  | nil => exact absurd rfl hs
  | cons c rest =>
    simp only [collapseStep]
    split
    · split
      · split
        · simp
        · have h := eatRepsAux_len (rest.take (runLen Char.isDigit rest))
            ((rest.drop (runLen Char.isDigit rest + 1)).length)
            (rest.drop (runLen Char.isDigit rest + 1))
          simp only [eatReps] at *
          simp only [List.length_cons, List.length_drop] at h ⊢
          omega
      · simp
    · simp

theorem trailStep_shrinks : StepShrinks trailStep := by
  intro s hs
  cases s with
  | nil => exact absurd rfl hs
  | cons c rest =>
    simp only [trailStep]
    split
    · split
      · simp only [List.length_cons, List.length_drop]; omega
      · simp
    · simp

theorem blankStep_shrinks : StepShrinks blankStep := by
  intro s hs
  cases s with
  | nil => exact absurd rfl hs
  | cons c rest =>
    simp only [blankStep]
    split
    · split
      · rename_i hr
        simp only [List.length_cons, List.length_drop]
        omega
      · simp
    · simp

theorem scanRun_id_of (step : Str → Str × Str) (hs : StepShrinks step)
    (hstep : ∀ c rest, c ≠ '[' → step (c :: rest) = ([c], rest)) :
    ∀ s : Str, (∀ c ∈ s, c ≠ '[') → scanRun step s = s := by
  intro s
  induction s with
  | nil => intro _; rfl
  | cons c rest ih =>
    intro h
    rw [scanRun_cons step hs, hstep c rest (h c (by simp))]
    simpa using ih (fun d hd => h d (by simp [hd]))

/-! ### C3: citation normalization -/

theorem mem_insStr (x y : Str) : ∀ l, y ∈ CitationAgent.insStr x l ↔ (y = x ∨ y ∈ l) := by
  intro l
  induction l with
  | nil => simp [CitationAgent.insStr]
  | cons z zs ih =>
    simp only [CitationAgent.insStr]
    split
    · rw [List.mem_cons, ih, List.mem_cons]
      tauto
    · rw [List.mem_cons]

theorem mem_sortStrs_aux (y : Str) :
    ∀ (l acc : List Str),
      y ∈ l.foldl (fun a x => CitationAgent.insStr x a) acc ↔ (y ∈ acc ∨ y ∈ l) := by
  intro l
  induction l with
  | nil => simp
  | cons z zs ih =>
    intro acc
    simp only [List.foldl_cons, ih, mem_insStr, List.mem_cons]
    tauto

theorem mem_sortStrs (y : Str) (l : List Str) : y ∈ CitationAgent.sortStrs l ↔ y ∈ l := by
  unfold CitationAgent.sortStrs
  rw [mem_sortStrs_aux]
  simp

theorem mem_dedupFirstAux {α : Type} [DecidableEq α] (y : α) :
    ∀ (l : List α) (seen : List α),
      y ∈ dedupFirstAux seen l ↔ (y ∈ l ∧ y ∉ seen) := by
  intro l
  induction l with
  | nil => simp [dedupFirstAux]
  | cons x xs ih =>
    intro seen
    simp only [dedupFirstAux]
    split
    · rename_i hx
      rw [ih]
      simp only [List.mem_cons]
      constructor
      · rintro ⟨h1, h2⟩; exact ⟨Or.inr h1, h2⟩
      · rintro ⟨h1 | h1, h2⟩
        · subst h1; exact absurd hx h2
        · exact ⟨h1, h2⟩
    · rename_i hx
      simp only [List.mem_cons, ih]
      constructor
      · rintro (rfl | ⟨h1, h2⟩)
        · exact ⟨Or.inl rfl, hx⟩
        · refine ⟨Or.inr h1, fun hy => h2 (by simp [hy])⟩
      · rintro ⟨h1 | h1, h2⟩
        · exact Or.inl h1
        · by_cases hyx : y = x
          · exact Or.inl hyx
          · exact Or.inr ⟨h1, by simp [hyx, h2]⟩

theorem mem_dedupFirst {α : Type} [DecidableEq α] (y : α) (l : List α) :
    y ∈ dedupFirst l ↔ y ∈ l := by
  unfold dedupFirst
  rw [mem_dedupFirstAux]
  simp

theorem mem_sortedSet (y : Str) (l : List Str) : y ∈ CitationAgent.sortedSet l ↔ y ∈ l := by
  unfold CitationAgent.sortedSet
  rw [mem_sortStrs, mem_dedupFirst]

theorem normalizeAux_no_skip (today : Str) (host : Str → Str)
    (evidence : List EvidenceRecord) :
    ∀ (cands : List CitationAgent.CitationCandidate) (idx : Nat) (seen : List Str),
      (∀ c ∈ cands, pyStrip c.url ≠ [] ∧ pyStrip c.url ∉ seen) →
      (cands.map (fun c => pyStrip c.url)).Nodup →
      CitationAgent.normalizeAux today host evidence cands idx seen =
        (List.enumFrom idx cands).map
          (fun p => CitationAgent.mkNormalizedEntry today host evidence p.1 p.2) := by
  intro cands
  induction cands with
  | nil => intro idx seen _ _; rfl
  | cons cand rest ih =>
    intro idx seen h hd
    have hc := h cand (by simp)
    have hrest : CitationAgent.normalizeAux today host evidence rest (idx + 1)
        (pyStrip cand.url :: seen) =
        (List.enumFrom (idx + 1) rest).map
          (fun p => CitationAgent.mkNormalizedEntry today host evidence p.1 p.2) := by
      refine ih (idx + 1) (pyStrip cand.url :: seen) ?_ hd.of_cons
      intro c hcmem
      refine ⟨(h c (by simp [hcmem])).1, ?_⟩
      simp only [List.mem_cons]
      push_neg
      refine ⟨?_, (h c (by simp [hcmem])).2⟩
      have hne := (List.nodup_cons.mp hd).1
      intro heq
      apply hne
      show pyStrip cand.url ∈ List.map (fun c => pyStrip c.url) rest
      rw [← heq]
      exact List.mem_map_of_mem (fun c => pyStrip c.url) hcmem
    simp only [CitationAgent.normalizeAux]
    rw [if_neg (by simp [hc.1, hc.2])]
    rw [hrest, List.enumFrom_cons, List.map_cons]
    rfl

/-- C3 counterexample: with a duplicate candidate URL the second candidate is
skipped but the enumeration index is not, so the returned ids are `[1, 3]`
and the k-th entry does not carry `citation_id = k`. -/
theorem c3_counterexample :
    (CitationAgent.normalize cToday cHost c3Cands []).map (fun e => e.citation_id) = [1, 3] ∧
    ¬ contiguousIds (CitationAgent.normalize cToday cHost c3Cands []) := by
  constructor
  · rfl
  · intro h
    unfold contiguousIds at h
    have h2 : ([1, 3] : List Int) = [1, 2] := by
      calc ([1, 3] : List Int)
          = (CitationAgent.normalize cToday cHost c3Cands []).map (fun e => e.citation_id) := by rfl
        _ = _ := by rw [h]; rfl
    simp at h2

/-- C3 (amended): when no candidate is skipped (stripped URLs non-empty and
pairwise distinct), normalization yields pairwise-distinct non-empty URLs,
sequential `citation_id`s starting at 1 (k-th entry has id k), evidence links
equal to the evidence ids sharing the URL when the URL occurs in evidence
(else the candidate's own list), and publisher/title defaulting to the URL
host and "Untitled".  Without that premise the id equals the candidate's
1-based position, which leaves gaps (see the counterexample). -/
theorem c3_normalize_amended (today : Str) (host : Str → Str)
    (cands : List CitationAgent.CitationCandidate) (evidence : List EvidenceRecord)
    (h1 : ∀ c ∈ cands, pyStrip c.url ≠ [])
    (h2 : (cands.map (fun c => pyStrip c.url)).Nodup) :
    (CitationAgent.normalize today host cands evidence).length = cands.length ∧
    contiguousIds (CitationAgent.normalize today host cands evidence) ∧
    ((CitationAgent.normalize today host cands evidence).map (fun e => e.url)).Nodup ∧
    (∀ e ∈ CitationAgent.normalize today host cands evidence, e.url ≠ []) ∧
    (∀ k (hk : k < cands.length) (hk2 : k < (CitationAgent.normalize today host cands evidence).length),
      (CitationAgent.normalize today host cands evidence).get ⟨k, hk2⟩ =
        CitationAgent.mkNormalizedEntry today host evidence (k + 1) (cands.get ⟨k, hk⟩) ∧
      ((CitationAgent.normalize today host cands evidence).get ⟨k, hk2⟩).citation_id = (k : Int) + 1 ∧
      (CitationAgent.urlInEvidence evidence (pyStrip (cands.get ⟨k, hk⟩).url) = true →
        ∀ x, x ∈ ((CitationAgent.normalize today host cands evidence).get ⟨k, hk2⟩).evidence_ids ↔
          (∃ e ∈ evidence, e.url = pyStrip (cands.get ⟨k, hk⟩).url ∧ e.evidence_id = x)) ∧
      (CitationAgent.urlInEvidence evidence (pyStrip (cands.get ⟨k, hk⟩).url) = false →
        ∀ x, x ∈ ((CitationAgent.normalize today host cands evidence).get ⟨k, hk2⟩).evidence_ids ↔
          x ∈ (cands.get ⟨k, hk⟩).evidence_ids)) := by
  have hmain : CitationAgent.normalize today host cands evidence =
      (List.enumFrom 1 cands).map
        (fun p => CitationAgent.mkNormalizedEntry today host evidence p.1 p.2) := by
    unfold CitationAgent.normalize
    split
    · rename_i hnil; subst hnil; rfl
    · exact normalizeAux_no_skip today host evidence cands 1 []
        (fun c hc => ⟨h1 c hc, by simp⟩) h2
  have hlen : (CitationAgent.normalize today host cands evidence).length = cands.length := by
    rw [hmain]; simp
  have hget : ∀ k (hk : k < cands.length)
      (hk2 : k < (CitationAgent.normalize today host cands evidence).length),
      (CitationAgent.normalize today host cands evidence).get ⟨k, hk2⟩ =
        CitationAgent.mkNormalizedEntry today host evidence (k + 1) (cands.get ⟨k, hk⟩) := by
    intro k hk hk2
    rw [List.get_of_eq hmain ⟨k, hk2⟩]
    simp only [List.get_eq_getElem, List.getElem_map, List.getElem_enumFrom]
    rw [Nat.add_comm 1 k]
  refine ⟨hlen, ?_, ?_, ?_, ?_⟩
  · unfold contiguousIds
    apply List.ext_get
    · simp
    · intro n h1n h2n
      have h1n' : n < (CitationAgent.normalize today host cands evidence).length := by
        simpa using h1n
      have hkc : n < cands.length := by omega
      simp only [List.get_eq_getElem, List.getElem_map]
      rw [← List.get_eq_getElem _ ⟨n, h1n'⟩, hget n hkc h1n']
      simp [CitationAgent.mkNormalizedEntry, List.getElem_range]
  · have hurls : (CitationAgent.normalize today host cands evidence).map (fun e => e.url) =
        cands.map (fun c => pyStrip c.url) := by
      apply List.ext_get
      · simp [hlen]
      · intro n h1n h2n
        have h1n' : n < (CitationAgent.normalize today host cands evidence).length := by
          simpa using h1n
        have hkc : n < cands.length := by simpa using h2n
        simp only [List.get_eq_getElem, List.getElem_map]
        rw [← List.get_eq_getElem _ ⟨n, h1n'⟩, hget n hkc h1n']
        rfl
    rw [hurls]
    exact h2
  · intro e he
    rw [hmain] at he
    simp only [List.mem_map] at he
    obtain ⟨p, hp, rfl⟩ := he
    obtain ⟨hp1, hp2, hp3⟩ := List.mem_enumFrom hp
    have hmem : p.2 ∈ cands := hp3 ▸ List.getElem_mem _
    have := h1 p.2 hmem
    simpa [CitationAgent.mkNormalizedEntry] using this
  · intro k hk hk2
    have hgg := hget k hk hk2
    refine ⟨hgg, by rw [hgg]; rfl, ?_, ?_⟩
    · intro hin x
      rw [hgg]
      simp only [CitationAgent.mkNormalizedEntry, hin, if_pos]
      rw [mem_sortedSet]
      simp only [CitationAgent.urlEvidenceIds, List.mem_map, List.mem_filter]
      constructor
      · rintro ⟨e, ⟨he1, he2⟩, rfl⟩
        exact ⟨e, he1, by simpa using he2, rfl⟩
      · rintro ⟨e, he1, he2, rfl⟩
        exact ⟨e, ⟨he1, by simpa using he2⟩, rfl⟩
    · intro hin x
      rw [hgg]
      simp only [CitationAgent.mkNormalizedEntry, hin]
      rw [if_neg (by simp [hin])]
      rw [mem_sortedSet]

/-- C3 amended witness: two candidates with distinct URLs and evidence
sharing the first URL. -/
theorem c3_normalize_amended_witness :
    (∀ c ∈ c3GoodCands, pyStrip c.url ≠ []) ∧
    (c3GoodCands.map (fun c => pyStrip c.url)).Nodup ∧
    contiguousIds (CitationAgent.normalize cToday cHost c3GoodCands c3Evidence) ∧
    ((CitationAgent.normalize cToday cHost c3GoodCands c3Evidence).map (fun e => e.url)).Nodup := by
  have h := c3_normalize_amended cToday cHost c3GoodCands c3Evidence
    (by decide) (by decide)
  exact ⟨by decide, by decide, h.2.1, h.2.2.1⟩

/-! ### C4: iteration plan task normalization -/

theorem digitChar_val : ∀ m, m < 10 → (Nat.digitChar m).toNat - 48 = m := by
  intro m hm
  interval_cases m <;> rfl

theorem digitsToNat_append_digit (a : Str) (d : Char) :
    digitsToNat (a ++ [d]) = 10 * digitsToNat a + (d.toNat - 48) := by
  unfold digitsToNat
  rw [List.foldl_append]
  simp [Nat.mul_comm]

theorem natToCharsAux_roundtrip : ∀ fuel n, n < fuel →
    digitsToNat (natToCharsAux fuel n) = n := by
  intro fuel
  induction fuel with
  | zero => intro n h; omega
  | succ f ih =>
    intro n h
    simp only [natToCharsAux]
    split
    · rename_i h10
      simp [digitsToNat, digitChar_val n h10]
    · rename_i h10
      push_neg at h10
      rw [digitsToNat_append_digit]
      have hdiv : n / 10 < f := by
        have := Nat.div_lt_self (show 0 < n by omega) (show 1 < 10 by omega)
        omega
      rw [ih (n / 10) hdiv, digitChar_val (n % 10) (Nat.mod_lt _ (by omega))]
      omega

theorem natToChars_inj {a b : Nat} (h : natToChars a = natToChars b) : a = b := by
  have ha := natToCharsAux_roundtrip (a + 1) a (Nat.lt_succ_self a)
  have hb := natToCharsAux_roundtrip (b + 1) b (Nat.lt_succ_self b)
  unfold natToChars at h
  rw [← ha, ← hb, h]

theorem genTaskId_inj (iterN : Nat) {a b : Nat}
    (h : LeadAgent.genTaskId iterN a = LeadAgent.genTaskId iterN b) : a = b := by
  unfold LeadAgent.genTaskId at h
  exact natToChars_inj (List.append_cancel_left h)

theorem genTaskId_startsWith (iterN n : Nat) :
    startsWithL (LeadAgent.genTaskId iterN n) ("iter_".toList) = true := rfl

theorem ne_genTaskId_of_not_startsWith {id : Str}
    (h : startsWithL id ("iter_".toList) = false) (iterN n : Nat) :
    id ≠ LeadAgent.genTaskId iterN n := by
  intro he
  rw [he, genTaskId_startsWith] at h
  simp at h

theorem taskAccInv_nil (iterN : Nat) : TaskAccInv iterN [] := by
  refine ⟨List.nodup_nil, ?_, ?_⟩ <;> simp

theorem taskAccInv_append (iterN : Nat) (acc : List SubagentTask) (t : SubagentTask)
    (hinv : TaskAccInv iterN acc)
    (hfocus : t.focus ≠ []) (hq : t.search_queries ≠ [])
    (hid : (startsWithL t.task_id ("iter_".toList) = false ∧
            t.task_id ∉ acc.map (fun x => x.task_id)) ∨
           t.task_id = LeadAgent.genTaskId iterN (acc.length + 1)) :
    TaskAccInv iterN (acc ++ [t]) := by
  obtain ⟨hn, hg, hf⟩ := hinv
  have hfresh : t.task_id ∉ acc.map (fun x => x.task_id) := by
    rcases hid with ⟨_, hni⟩ | hgen
    · exact hni
    · intro hmem
      have hiter : startsWithL t.task_id ("iter_".toList) = true := by
        rw [hgen]; exact genTaskId_startsWith iterN (acc.length + 1)
      obtain ⟨m, hm1, hm2, hmeq⟩ := hg t.task_id hmem hiter
      have : m = acc.length + 1 := genTaskId_inj iterN (hmeq ▸ hgen ▸ rfl)
      omega
  refine ⟨?_, ?_, ?_⟩
  · rw [List.map_append]
    simp only [List.map_cons, List.map_nil]
    rw [List.nodup_append]
    refine ⟨hn, List.nodup_singleton _, ?_⟩
    intro x hx hxx
    simp only [List.mem_singleton] at hxx
    subst hxx
    exact hfresh hx
  · intro id hid2 hstarts
    rw [List.map_append] at hid2
    rcases List.mem_append.mp hid2 with hold | hnew
    · obtain ⟨m, hm1, hm2, hmeq⟩ := hg id hold hstarts
      exact ⟨m, hm1, by simp; omega, hmeq⟩
    · simp only [List.map_cons, List.map_nil, List.mem_singleton] at hnew
      subst hnew
      rcases hid with ⟨hfa, _⟩ | hgen
      · rw [hstarts] at hfa; exact absurd hfa (by simp)
      · exact ⟨acc.length + 1, by omega, by simp, hgen⟩
  · intro x hx
    rcases List.mem_append.mp hx with hold | hnew
    · exact hf x hold
    · simp only [List.mem_singleton] at hnew
      subst hnew
      exact ⟨hfocus, hq⟩

theorem normLoop_inv (iterN : Nat) :
    ∀ (tasks : List SubagentTask) (idx : Nat) (seen : List Str) (acc : List SubagentTask),
      (∀ t ∈ tasks, pyStrip t.task_id ≠ [] ∧
        startsWithL (pyStrip t.task_id) ("iter_".toList) = false) →
      TaskAccInv iterN acc →
      (∀ id ∈ acc.map (fun t => t.task_id), id ∈ seen) →
      TaskAccInv iterN (LeadAgent.normLoop iterN tasks idx seen acc) := by
  intro tasks
  induction tasks with
  | nil => intro idx seen acc _ hinv _; exact hinv
  | cons t rest ih =>
    intro idx seen acc hids hinv hseen
    have ht := hids t (by simp)
    simp only [LeadAgent.normLoop]
    by_cases hfoc : pyStrip t.focus = []
    · rw [if_pos hfoc]
      exact ih (idx + 1) seen acc (fun x hx => hids x (by simp [hx])) hinv hseen
    · rw [if_neg hfoc]
      have hcand0 : (if pyStrip t.task_id = [] then LeadAgent.genTaskId iterN idx
          else pyStrip t.task_id) = pyStrip t.task_id := if_neg ht.1
      rw [hcand0]
      set queries0 := (t.search_queries.map pyStrip).filter (fun q => q ≠ []) with hq0
      by_cases hcol : pyStrip t.task_id ∈ seen
      · rw [if_pos hcol]
        refine ih (idx + 1) _ _ (fun x hx => hids x (by simp [hx])) ?_ ?_
        · refine taskAccInv_append iterN acc _ hinv hfoc ?_ (Or.inr rfl)
          by_cases hqe : queries0 = [] <;> simp [hqe]
        · intro id hid2
          rw [List.map_append] at hid2
          rcases List.mem_append.mp hid2 with hold | hnew
          · exact List.mem_cons_of_mem _ (hseen id hold)
          · simp only [List.map_cons, List.map_nil, List.mem_singleton] at hnew
            subst hnew
            exact List.mem_cons_self _ _
      · rw [if_neg hcol]
        refine ih (idx + 1) _ _ (fun x hx => hids x (by simp [hx])) ?_ ?_
        · refine taskAccInv_append iterN acc _ hinv hfoc ?_ ?_
          · by_cases hqe : queries0 = [] <;> simp [hqe]
          · exact Or.inl ⟨ht.2, fun hmem => hcol (hseen _ hmem)⟩
        · intro id hid2
          rw [List.map_append] at hid2
          rcases List.mem_append.mp hid2 with hold | hnew
          · exact List.mem_cons_of_mem _ (hseen id hold)
          · simp only [List.map_cons, List.map_nil, List.mem_singleton] at hnew
            subst hnew
            exact List.mem_cons_self _ _

theorem fallbackTasks_length (request : ResearchRequest) (iterN : Nat) :
    (LeadAgent.fallbackTasks request iterN).length = max 1 (min request.parallelism 8) := by
  simp [LeadAgent.fallbackTasks]

theorem fallbackTasks_inv (request : ResearchRequest) (iterN : Nat)
    (hq : request.query ≠ []) :
    TaskAccInv iterN (LeadAgent.fallbackTasks request iterN) := by
  have hids : (LeadAgent.fallbackTasks request iterN).map (fun t => t.task_id) =
      (List.range (max 1 (min request.parallelism 8))).map
        (fun i => LeadAgent.genTaskId iterN (i + 1)) := by
    simp [LeadAgent.fallbackTasks, List.map_map]
  refine ⟨?_, ?_, ?_⟩
  · rw [hids]
    refine List.Nodup.map ?_ (List.nodup_range _)
    intro a b hab
    have := genTaskId_inj iterN hab
    omega
  · intro id hid2 _
    rw [hids] at hid2
    simp only [List.mem_map, List.mem_range] at hid2
    obtain ⟨i, hi, rfl⟩ := hid2
    exact ⟨i + 1, by omega, by rw [fallbackTasks_length]; omega, rfl⟩
  · intro t ht
    simp only [LeadAgent.fallbackTasks, List.mem_map, List.mem_range] at ht
    obtain ⟨i, hi, rfl⟩ := ht
    by_cases h0 : i = 0
    · subst h0
      exact ⟨by simpa using hq, by simp⟩
    · rw [if_neg h0, if_neg h0]
      refine ⟨?_, by simp⟩
      have hm : (" - ".toList : Str) ≠ [] := by decide
      intro hcon
      rcases List.append_eq_nil.mp hcon with ⟨h1, h2⟩
      rcases List.append_eq_nil.mp h1 with ⟨h3, h4⟩
      exact hm h4

theorem baseTasks_inv (tasks : List SubagentTask) (request : ResearchRequest) (iterN : Nat)
    (hq : request.query ≠ [])
    (hids : ∀ t ∈ tasks, pyStrip t.task_id ≠ [] ∧
      startsWithL (pyStrip t.task_id) ("iter_".toList) = false) :
    TaskAccInv iterN (LeadAgent.baseTasks tasks request iterN) ∧
    LeadAgent.baseTasks tasks request iterN ≠ [] := by
  unfold LeadAgent.baseTasks
  split
  · refine ⟨fallbackTasks_inv request iterN hq, ?_⟩
    intro hnil
    have hl := fallbackTasks_length request iterN
    rw [hnil] at hl
    simp at hl
    omega
  · rename_i hne
    exact ⟨normLoop_inv iterN tasks 1 [] [] hids (taskAccInv_nil iterN) (by simp), hne⟩

theorem padLoop_extends (query : Str) (iterN target : Nat) :
    ∀ fuel fi acc, ∃ ext,
      LeadAgent.padLoop query iterN target fuel fi acc = acc ++ ext := by
  intro fuel
  induction fuel with
  | zero => intro fi acc; exact ⟨[], by simp [LeadAgent.padLoop]⟩
  | succ f ih =>
    intro fi acc
    simp only [LeadAgent.padLoop]
    split
    · obtain ⟨ext, hext⟩ := ih (fi + 1) (acc ++ [LeadAgent.mkPadTask query iterN fi acc])
      rw [hext]
      exact ⟨_, by rw [List.append_assoc]⟩
    · exact ⟨[], by simp⟩

theorem padLoop_inv (query : Str) (iterN target : Nat) :
    ∀ fuel fi acc, TaskAccInv iterN acc →
      TaskAccInv iterN (LeadAgent.padLoop query iterN target fuel fi acc) ∧
      acc.length ≤ (LeadAgent.padLoop query iterN target fuel fi acc).length ∧
      (target ≤ acc.length + fuel →
        target ≤ (LeadAgent.padLoop query iterN target fuel fi acc).length) := by
  intro fuel
  induction fuel with
  | zero =>
    intro fi acc hinv
    refine ⟨hinv, le_refl _, ?_⟩
    intro h
    simp only [LeadAgent.padLoop]
    omega
  | succ f ih =>
    intro fi acc hinv
    simp only [LeadAgent.padLoop]
    split
    · rename_i hlt
      have hinv' : TaskAccInv iterN (acc ++ [LeadAgent.mkPadTask query iterN fi acc]) := by
        refine taskAccInv_append iterN acc _ hinv ?_ (by simp [LeadAgent.mkPadTask])
          (Or.inr rfl)
        have hm : (" - ".toList : Str) ≠ [] := by decide
        simp only [LeadAgent.mkPadTask]
        intro hcon
        rcases List.append_eq_nil.mp hcon with ⟨h1, h2⟩
        rcases List.append_eq_nil.mp h1 with ⟨h3, h4⟩
        exact hm h4
      have h := ih (fi + 1) _ hinv'
      refine ⟨h.1, ?_, ?_⟩
      · calc acc.length ≤ (acc ++ [LeadAgent.mkPadTask query iterN fi acc]).length := by
              simp
          _ ≤ _ := h.2.1
      · intro htgt
        refine h.2.2 ?_
        simp only [List.length_append, List.length_cons, List.length_nil]
        omega
    · rename_i hge
      exact ⟨hinv, le_refl _, by intro _; omega⟩

theorem padLoop_shape (query : Str) (iterN target : Nat) :
    ∀ fuel fi acc, acc ≠ [] →
      ∀ k, acc.length ≤ k →
        k < (LeadAgent.padLoop query iterN target fuel fi acc).length →
        ((LeadAgent.padLoop query iterN target fuel fi acc).getD k
            LeadAgent.dummyTask).task_id = LeadAgent.genTaskId iterN (k + 1) ∧
        ((LeadAgent.padLoop query iterN target fuel fi acc).getD k
            LeadAgent.dummyTask).focus =
          ((LeadAgent.padLoop query iterN target fuel fi acc).getD
              ((fi + (k - acc.length)) % k) LeadAgent.dummyTask).focus ++
            (" - ".toList) ++ LeadAgent.facets.getD ((fi + (k - acc.length)) % 8) [] ∧
        ((LeadAgent.padLoop query iterN target fuel fi acc).getD k
            LeadAgent.dummyTask).search_queries =
          [query ++ [' '] ++ LeadAgent.facets.getD ((fi + (k - acc.length)) % 8) [],
           ((LeadAgent.padLoop query iterN target fuel fi acc).getD
              ((fi + (k - acc.length)) % k) LeadAgent.dummyTask).focus] := by
  intro fuel
  induction fuel with
  | zero =>
    intro fi acc _ k hk1 hk2
    simp only [LeadAgent.padLoop] at hk2
    omega
  | succ f ih =>
    intro fi acc hne k hk1 hk2
    simp only [LeadAgent.padLoop] at hk2 ⊢
    by_cases hlt : acc.length < target
    · rw [if_pos hlt] at hk2 ⊢
      have hlen0 : 0 < acc.length := List.length_pos.mpr hne
      by_cases hk : k = acc.length
      · subst hk
        obtain ⟨ext, hext⟩ :=
          padLoop_extends query iterN target f (fi + 1)
            (acc ++ [LeadAgent.mkPadTask query iterN fi acc])
        have hkr : acc.length <
            (LeadAgent.padLoop query iterN target f (fi + 1)
              (acc ++ [LeadAgent.mkPadTask query iterN fi acc])).length := hk2
        have hgd : (LeadAgent.padLoop query iterN target f (fi + 1)
              (acc ++ [LeadAgent.mkPadTask query iterN fi acc])).getD acc.length
              LeadAgent.dummyTask = LeadAgent.mkPadTask query iterN fi acc := by
          rw [hext, List.append_assoc]
          have hlen : acc.length <
              (acc ++ ([LeadAgent.mkPadTask query iterN fi acc] ++ ext)).length := by
            simp
          rw [List.getD_eq_getElem _ _ hlen,
            List.getElem_append_right (le_refl acc.length)]
          simp
        have hbase : (LeadAgent.padLoop query iterN target f (fi + 1)
              (acc ++ [LeadAgent.mkPadTask query iterN fi acc])).getD
              ((fi + (acc.length - acc.length)) % acc.length) LeadAgent.dummyTask =
              acc.getD (fi % acc.length) LeadAgent.dummyTask := by
          have hm : (fi + (acc.length - acc.length)) % acc.length = fi % acc.length := by
            simp
          rw [hm, hext, List.getD_append _ _ _ _ (by
            have := Nat.mod_lt fi hlen0
            simp only [List.length_append, List.length_cons, List.length_nil]
            omega)]
          rw [List.getD_append _ _ _ _ (Nat.mod_lt fi hlen0)]
        have hm8 : (fi + (acc.length - acc.length)) % 8 = fi % 8 := by simp
        refine ⟨?_, ?_, ?_⟩
        · rw [hgd]; rfl
        · rw [hgd, hbase, hm8]; rfl
        · rw [hgd, hbase, hm8]; rfl
      · have hk' : acc.length + 1 ≤ k := by omega
        have hidx : (fi + 1) + (k - (acc ++ [LeadAgent.mkPadTask query iterN fi acc]).length)
            = fi + (k - acc.length) := by
          simp only [List.length_append, List.length_cons, List.length_nil]
          omega
        have := ih (fi + 1) (acc ++ [LeadAgent.mkPadTask query iterN fi acc])
          (by simp) k (by simp only [List.length_append, List.length_cons,
            List.length_nil]; omega) hk2
        rw [hidx] at this
        exact this
    · rw [if_neg hlt] at hk2 ⊢
      omega

/-- C4 counterexample: a supplied task id using the generated scheme plus a
blank second id makes the regenerated id collide, so the plan's task ids are
not unique. -/
theorem c4_counterexample :
    (LeadAgent.ensureParallelTaskCount c4BadTasks c4Req 0).map (fun t => t.task_id) =
      [("iter_1_task_2".toList), ("iter_1_task_2".toList)] ∧
    ¬ ((LeadAgent.ensureParallelTaskCount c4BadTasks c4Req 0).map
        (fun t => t.task_id)).Nodup := by
  constructor
  · rfl
  · intro h
    rw [show (LeadAgent.ensureParallelTaskCount c4BadTasks c4Req 0).map (fun t => t.task_id) =
      [("iter_1_task_2".toList), ("iter_1_task_2".toList)] from rfl] at h
    simp at h

/-- C4 (amended): provided the request query is non-empty and every supplied
task id is non-blank after stripping and does not begin with `iter_`, the
plan produced by `_ensure_parallel_task_count` has at least
`target = clamp(parallelism, 1, 8)` tasks, unique task ids, non-empty focus
and at least one search query per task, and each padded task (beyond the
normalized base) has id `iter_{i+1}_task_{k+1}`, focus
`"{base_focus} - {facet}"` and queries
`["{query} {facet}", base_focus]` with the base focus cycling
over the grown list and the facet cycling over the facet list.  Without the
id premise, regenerated ids can collide (see the counterexample). -/
theorem c4_ensure_amended (tasks : List SubagentTask) (request : ResearchRequest)
    (iterN : Nat) (hq : request.query ≠ [])
    (hids : ∀ t ∈ tasks, pyStrip t.task_id ≠ [] ∧
      startsWithL (pyStrip t.task_id) ("iter_".toList) = false) :
    ((LeadAgent.ensureParallelTaskCount tasks request iterN).map
        (fun t => t.task_id)).Nodup ∧
    max 1 (min request.parallelism 8) ≤
      (LeadAgent.ensureParallelTaskCount tasks request iterN).length ∧
    (∀ t ∈ LeadAgent.ensureParallelTaskCount tasks request iterN,
      t.focus ≠ [] ∧ t.search_queries ≠ []) ∧
    (∀ k, (LeadAgent.baseTasks tasks request iterN).length ≤ k →
      k < (LeadAgent.ensureParallelTaskCount tasks request iterN).length →
      ((LeadAgent.ensureParallelTaskCount tasks request iterN).getD k
          LeadAgent.dummyTask).task_id = LeadAgent.genTaskId iterN (k + 1) ∧
      ((LeadAgent.ensureParallelTaskCount tasks request iterN).getD k
          LeadAgent.dummyTask).focus =
        ((LeadAgent.ensureParallelTaskCount tasks request iterN).getD
            ((k - (LeadAgent.baseTasks tasks request iterN).length) % k)
            LeadAgent.dummyTask).focus ++ (" - ".toList) ++
          LeadAgent.facets.getD
            ((k - (LeadAgent.baseTasks tasks request iterN).length) % 8) [] ∧
      ((LeadAgent.ensureParallelTaskCount tasks request iterN).getD k
          LeadAgent.dummyTask).search_queries =
        [request.query ++ [' '] ++ LeadAgent.facets.getD
            ((k - (LeadAgent.baseTasks tasks request iterN).length) % 8) [],
         ((LeadAgent.ensureParallelTaskCount tasks request iterN).getD
            ((k - (LeadAgent.baseTasks tasks request iterN).length) % k)
            LeadAgent.dummyTask).focus]) := by
  obtain ⟨hbinv, hbne⟩ := baseTasks_inv tasks request iterN hq hids
  have hp := padLoop_inv request.query iterN (max 1 (min request.parallelism 8))
    (max 1 (min request.parallelism 8)) 0 (LeadAgent.baseTasks tasks request iterN) hbinv
  refine ⟨hp.1.1, hp.2.2 (by omega), ?_, ?_⟩
  · exact hp.1.2.2
  · intro k hk1 hk2
    have hsh := padLoop_shape request.query iterN (max 1 (min request.parallelism 8))
      (max 1 (min request.parallelism 8)) 0 (LeadAgent.baseTasks tasks request iterN)
      hbne k hk1 hk2
    simpa using hsh

/-- C4 amended witness: one well-behaved supplied task padded to
parallelism 3; the resulting ids are unique, evaluated concretely. -/
theorem c4_ensure_amended_witness :
    c4GoodReq.query ≠ [] ∧
    (∀ t ∈ c4GoodTasks, pyStrip t.task_id ≠ [] ∧
      startsWithL (pyStrip t.task_id) ("iter_".toList) = false) ∧
    ((LeadAgent.ensureParallelTaskCount c4GoodTasks c4GoodReq 0).map
        (fun t => t.task_id)).Nodup ∧
    max 1 (min c4GoodReq.parallelism 8) ≤
      (LeadAgent.ensureParallelTaskCount c4GoodTasks c4GoodReq 0).length ∧
    (LeadAgent.ensureParallelTaskCount c4GoodTasks c4GoodReq 0).map
        (fun t => t.task_id) =
      [("tidA".toList), ("iter_1_task_2".toList), ("iter_1_task_3".toList)] := by
  have h := c4_ensure_amended c4GoodTasks c4GoodReq 0 (by decide) (by decide)
  exact ⟨by decide, by decide, h.1, h.2.1, by rfl⟩

/-! ### C6: scrape-miss fallback evidence -/

theorem snd_mem_of_mem_enum {α : Type} {p : Nat × α} {l : List α}
    (h : p ∈ l.enum) : p.2 ∈ l := by
  obtain ⟨i, x⟩ := p
  obtain ⟨_, h2, h3⟩ := List.mem_enumFrom h
  simp only [Nat.sub_zero] at h3
  rw [h3]
  exact List.getElem_mem _

theorem mergeHit_inv (p : List SearchSubagent.SearchHit × List Str)
    (hit : SearchSubagent.SearchHit)
    (h : (p.1.map (fun h => h.url)).Nodup ∧ ∀ u ∈ p.1.map (fun h => h.url), u ∈ p.2) :
    ((SearchSubagent.mergeHit p hit).1.map (fun h => h.url)).Nodup ∧
    ∀ u ∈ (SearchSubagent.mergeHit p hit).1.map (fun h => h.url),
      u ∈ (SearchSubagent.mergeHit p hit).2 := by
  unfold SearchSubagent.mergeHit
  split
  · exact h
  · rename_i hnin
    constructor
    · rw [List.map_append]
      simp only [List.map_cons, List.map_nil]
      rw [List.nodup_append]
      refine ⟨h.1, List.nodup_singleton _, ?_⟩
      intro x hx hxx
      simp only [List.mem_singleton] at hxx
      subst hxx
      exact hnin (h.2 _ hx)
    · intro u hu
      rw [List.map_append] at hu
      rcases List.mem_append.mp hu with hold | hnew
      · exact List.mem_cons_of_mem _ (h.2 u hold)
      · simp only [List.map_cons, List.map_nil, List.mem_singleton] at hnew
        subst hnew
        exact List.mem_cons_self _ _

theorem foldl_mergeHit_inv (hits : List SearchSubagent.SearchHit) :
    ∀ (p : List SearchSubagent.SearchHit × List Str),
      ((p.1.map (fun h => h.url)).Nodup ∧ ∀ u ∈ p.1.map (fun h => h.url), u ∈ p.2) →
      (((hits.foldl SearchSubagent.mergeHit p).1.map (fun h => h.url)).Nodup ∧
       ∀ u ∈ (hits.foldl SearchSubagent.mergeHit p).1.map (fun h => h.url),
         u ∈ (hits.foldl SearchSubagent.mergeHit p).2) := by
  induction hits with
  | nil => intro p h; exact h
  | cons hit rest ih =>
    intro p h
    exact ih _ (mergeHit_inv p hit h)

theorem collectHits_urls_nodup (env : SearchSubagent.SubagentEnv)
    (task : SubagentTask) (request : ResearchRequest) :
    ((SearchSubagent.collectHits env task request).map (fun h => h.url)).Nodup := by
  unfold SearchSubagent.collectHits
  have main : ∀ (qs : List Str) (p : List SearchSubagent.SearchHit × List Str),
      ((p.1.map (fun h => h.url)).Nodup ∧ ∀ u ∈ p.1.map (fun h => h.url), u ∈ p.2) →
      (((qs.foldl (fun p q =>
          (env.search q request.max_results_per_query).foldl SearchSubagent.mergeHit p)
          p).1.map (fun h => h.url)).Nodup ∧
        ∀ u ∈ (qs.foldl (fun p q =>
          (env.search q request.max_results_per_query).foldl SearchSubagent.mergeHit p)
          p).1.map (fun h => h.url),
          u ∈ (qs.foldl (fun p q =>
            (env.search q request.max_results_per_query).foldl SearchSubagent.mergeHit p)
            p).2) := by
    intro qs
    induction qs with
    | nil => intro p h; exact h
    | cons q rest ih =>
      intro p h
      exact ih _ (foldl_mergeHit_inv _ p h)
  exact (main _ ([], []) (by simp)).1

theorem selectedUrls_nodup (env : SearchSubagent.SubagentEnv)
    (task : SubagentTask) (request : ResearchRequest) :
    (SearchSubagent.selectedUrls env task request).Nodup := by
  unfold SearchSubagent.selectedUrls
  rw [List.map_take]
  exact (List.take_sublist _ _).nodup (collectHits_urls_nodup env task request)

theorem mkFallbackRecord_url (env : SearchSubagent.SubagentEnv) (task : SubagentTask)
    (idx : Nat) (url : Str) (hit : SearchSubagent.SearchHit) :
    (SearchSubagent.mkFallbackRecord env task idx url hit).url = url := rfl

theorem filter_fallbacks (env : SearchSubagent.SubagentEnv) (task : SubagentTask)
    (hits : List SearchSubagent.SearchHit) (plen : Nat) (url : Str)
    (hit : SearchSubagent.SearchHit)
    (hfind : hits.find? (fun h => h.url = url) = some hit) :
    ∀ (ms : List (Nat × Str)),
      (ms.map Prod.snd).Nodup →
      url ∈ ms.map Prod.snd →
      ∃ idx,
        (ms.filterMap (fun p => (hits.find? (fun h => h.url = p.2)).map
            (SearchSubagent.mkFallbackRecord env task (plen + p.1) p.2))).filter
          (fun r => r.url = url) =
        [SearchSubagent.mkFallbackRecord env task idx url hit] := by
  intro ms
  induction ms with
  | nil => intro _ hmem; simp at hmem
  | cons p rest ih =>
    intro hnd hmem
    have hnd2 : p.2 ∉ rest.map Prod.snd ∧ (rest.map Prod.snd).Nodup := by
      rw [List.map_cons] at hnd
      exact List.nodup_cons.mp hnd
    by_cases hu : p.2 = url
    · refine ⟨plen + p.1, ?_⟩
      simp only [List.filterMap_cons, hu, hfind, Option.map_some']
      rw [List.filter_cons]
      rw [if_pos (by rw [mkFallbackRecord_url]; simp)]
      have htail : (rest.filterMap (fun p => (hits.find? (fun h => h.url = p.2)).map
          (SearchSubagent.mkFallbackRecord env task (plen + p.1) p.2))).filter
          (fun r => r.url = url) = [] := by
        rw [List.filter_eq_nil_iff]
        intro r hr
        obtain ⟨q, hq, hqe⟩ := List.mem_filterMap.mp hr
        have hrurl : r.url = q.2 := by
          rcases ho : hits.find? (fun h => h.url = q.2) with _ | h2
          · rw [ho] at hqe; simp at hqe
          · rw [ho] at hqe
            simp only [Option.map_some', Option.some_inj] at hqe
            rw [← hqe, mkFallbackRecord_url]
        have hq2 : q.2 ∈ rest.map Prod.snd := List.mem_map_of_mem Prod.snd hq
        have hnu : q.2 ≠ url := by
          intro he
          exact hnd2.1 (hu ▸ he ▸ hq2)
        simp [hrurl, hnu]
      rw [htail]
    · have hmem2 : url = p.2 ∨ url ∈ rest.map Prod.snd := by
        rw [List.map_cons] at hmem
        exact List.mem_cons.mp hmem
      have hmem3 : url ∈ rest.map Prod.snd := by
        rcases hmem2 with he | hm
        · exact absurd he.symm hu
        · exact hm
      obtain ⟨idx, hidx⟩ := ih hnd2.2 hmem3
      refine ⟨idx, ?_⟩
      simp only [List.filterMap_cons]
      rcases ho : hits.find? (fun h => h.url = p.2) with _ | h2
      · rw [ho]
        exact hidx
      · rw [ho]
        simp only [Option.map_some']
        rw [List.filter_cons, if_neg (by rw [mkFallbackRecord_url]; simp [hu])]
        exact hidx

/-- C6 counterexample: the fallback record's title is the hit title with
surrounding whitespace stripped, so it is not equal to the non-blank hit
title `" T "` (the claim's "title equal to the hit's title" fails). -/
theorem c6_counterexample :
    (SearchSubagent.executeTask c6Env c6Task c6Req).map (fun r => r.title) =
      [("T".toList)] ∧
    (SearchSubagent.executeTask c6Env c6Task c6Req).map (fun r => r.confidence) =
      [33 / 100] ∧
    (" T ".toList : Str) ≠ ("T".toList) ∧ pyStrip (" T ".toList) ≠ [] := by
  refine ⟨rfl, rfl, by decide, by decide⟩

/-- C6 (amended): every URL selected for scraping that the scraper did not
return yields exactly one fallback record, built from its merged search hit:
confidence 0.33, title the stripped hit title (or the URL when blank),
snippet and extracted text the stripped hit snippet falling back to that
title. -/
theorem c6_missing_url_fallback (env : SearchSubagent.SubagentEnv)
    (task : SubagentTask) (request : ResearchRequest) (url : Str)
    (hsel : url ∈ SearchSubagent.selectedUrls env task request)
    (hmiss : url ∉ (env.scrapeMany (SearchSubagent.selectedUrls env task request)).map
      (fun p => p.url)) :
    ∃ hit idx,
      (SearchSubagent.collectHits env task request).find? (fun h => h.url = url) =
        some hit ∧
      (SearchSubagent.executeTask env task request).filter (fun r => r.url = url) =
        [SearchSubagent.mkFallbackRecord env task idx url hit] ∧
      (SearchSubagent.mkFallbackRecord env task idx url hit).confidence = 33 / 100 ∧
      (SearchSubagent.mkFallbackRecord env task idx url hit).title =
        (if pyStrip hit.title = [] then url else pyStrip hit.title) ∧
      (SearchSubagent.mkFallbackRecord env task idx url hit).snippet =
        (if pyStrip hit.snippet = []
         then (if pyStrip hit.title = [] then url else pyStrip hit.title)
         else pyStrip hit.snippet) ∧
      (SearchSubagent.mkFallbackRecord env task idx url hit).extracted_text =
        (SearchSubagent.mkFallbackRecord env task idx url hit).snippet := by
  have hfind : ∃ hit, (SearchSubagent.collectHits env task request).find?
      (fun h => h.url = url) = some hit := by
    rcases ho : (SearchSubagent.collectHits env task request).find?
        (fun h => h.url = url) with _ | h2
    · exfalso
      have hall := List.find?_eq_none.mp ho
      have hin : url ∈ (SearchSubagent.collectHits env task request).map
          (fun h => h.url) := by
        unfold SearchSubagent.selectedUrls at hsel
        rw [List.map_take] at hsel
        exact (List.take_sublist _ _).subset hsel
      obtain ⟨h3, hh3, hh3e⟩ := List.mem_map.mp hin
      exact hall h3 hh3 (by simp [hh3e])
    · exact ⟨h2, ho⟩
  obtain ⟨hit, hhit⟩ := hfind
  have hscraped : (SearchSubagent.scrapedRecords env task request).filter
      (fun r => r.url = url) = [] := by
    rw [List.filter_eq_nil_iff]
    intro r hr
    unfold SearchSubagent.scrapedRecords at hr
    obtain ⟨p, hp, rfl⟩ := List.mem_map.mp hr
    simp only [decide_eq_true_eq]
    intro he
    apply hmiss
    rw [← he]
    exact List.mem_map_of_mem (fun pg => pg.url)
      (snd_mem_of_mem_enum hp)
  have hmemMissing : url ∈ SearchSubagent.missingUrls env task request := by
    unfold SearchSubagent.missingUrls
    rw [List.mem_filter]
    refine ⟨hsel, ?_⟩
    simp only [Bool.not_eq_true', List.any_eq_false]
    intro pg hpg
    simp only [decide_eq_true_eq]
    intro he
    exact hmiss (he ▸ List.mem_map_of_mem (fun p => p.url) hpg)
  have hndMissing : (SearchSubagent.missingUrls env task request).Nodup :=
    List.Nodup.filter _ (selectedUrls_nodup env task request)
  obtain ⟨idx, hflt⟩ := filter_fallbacks env task
    (SearchSubagent.collectHits env task request)
    ((env.scrapeMany (SearchSubagent.selectedUrls env task request)).length)
    url hit hhit (SearchSubagent.missingUrls env task request).enum
    (by rw [List.enum_map_snd]; exact hndMissing)
    (by rw [List.enum_map_snd]; exact hmemMissing)
  refine ⟨hit, idx, hhit, ?_, rfl, rfl, rfl, rfl⟩
  show (SearchSubagent.scrapedRecords env task request ++
      SearchSubagent.fallbackRecords env task request).filter (fun r => r.url = url) = _
  rw [List.filter_append, hscraped, List.nil_append]
  exact hflt

/-- C6 amended witness: two hits `a`, `b`, scraper returns nothing; both
records are the fallback records at confidence 0.33 with the hit titles. -/
theorem c6_missing_url_fallback_witness :
    (("a".toList) ∈ SearchSubagent.selectedUrls c6Env2 c6Task c6Req) ∧
    (("a".toList) ∉ (c6Env2.scrapeMany (SearchSubagent.selectedUrls c6Env2 c6Task c6Req)).map
      (fun p => p.url)) ∧
    (∃ hit idx,
      (SearchSubagent.collectHits c6Env2 c6Task c6Req).find?
        (fun h => h.url = ("a".toList)) = some hit ∧
      (SearchSubagent.executeTask c6Env2 c6Task c6Req).filter
        (fun r => r.url = ("a".toList)) =
        [SearchSubagent.mkFallbackRecord c6Env2 c6Task idx ("a".toList) hit] ∧
      (SearchSubagent.mkFallbackRecord c6Env2 c6Task idx ("a".toList) hit).confidence =
        33 / 100 ∧
      (SearchSubagent.mkFallbackRecord c6Env2 c6Task idx ("a".toList) hit).title =
        (if pyStrip hit.title = [] then ("a".toList) else pyStrip hit.title) ∧
      (SearchSubagent.mkFallbackRecord c6Env2 c6Task idx ("a".toList) hit).snippet =
        (if pyStrip hit.snippet = []
         then (if pyStrip hit.title = [] then ("a".toList) else pyStrip hit.title)
         else pyStrip hit.snippet) ∧
      (SearchSubagent.mkFallbackRecord c6Env2 c6Task idx ("a".toList) hit).extracted_text =
        (SearchSubagent.mkFallbackRecord c6Env2 c6Task idx ("a".toList) hit).snippet) ∧
    (SearchSubagent.executeTask c6Env2 c6Task c6Req).map (fun r => r.confidence) =
      [33 / 100, 33 / 100] ∧
    (SearchSubagent.executeTask c6Env2 c6Task c6Req).map (fun r => r.url) =
      [("a".toList), ("b".toList)] ∧
    (SearchSubagent.executeTask c6Env2 c6Task c6Req).map (fun r => r.title) =
      [("Ta".toList), ("Tb".toList)] := by
  refine ⟨by decide, by decide,
    c6_missing_url_fallback c6Env2 c6Task c6Req ("a".toList) (by decide) (by decide),
    rfl, by decide, by decide⟩

/-! ### C5: orchestrator loop continuation -/

theorem executedFrom_succ (env : LeadOrchestrator.OrchestratorEnv) (r start : Nat) :
    LeadOrchestrator.executedFrom env (r + 1) start =
      if LeadOrchestrator.continuesAfter env start
      then start :: LeadOrchestrator.executedFrom env r (start + 1)
      else [start] := by
  simp only [LeadOrchestrator.executedFrom, LeadOrchestrator.continuesAfter]
  by_cases h1 : (env.step start).taskOutcomes = [] <;>
    by_cases h2 : (env.step start).planContinue = true <;>
      by_cases h3 : (env.step start).synthContinue = true <;>
        by_cases h4 : LeadOrchestrator.iterationEvidence env start = [] <;>
          simp [h1, h2, h3, h4]

theorem executedFrom_mem (env : LeadOrchestrator.OrchestratorEnv) :
    ∀ rem start j, j ∈ LeadOrchestrator.executedFrom env rem start ↔
      (start ≤ j ∧ j < start + rem ∧
       ∀ k, start ≤ k → k < j → LeadOrchestrator.continuesAfter env k) := by
  intro rem
  induction rem with
  | zero =>
    intro start j
    simp only [LeadOrchestrator.executedFrom, List.not_mem_nil, false_iff]
    omega
  | succ r ih =>
    intro start j
    rw [executedFrom_succ]
    by_cases hc : LeadOrchestrator.continuesAfter env start
    · simp only [if_pos hc, List.mem_cons, ih (start + 1) j]
      constructor
      · rintro (rfl | ⟨ha, hb, hk⟩)
        · exact ⟨le_refl _, by omega, fun k hk1 hk2 => absurd hk2 (by omega)⟩
        · refine ⟨by omega, by omega, fun k hk1 hk2 => ?_⟩
          rcases Nat.lt_or_ge k (start + 1) with h | h
          · have : k = start := by omega
            subst this; exact hc
          · exact hk k h hk2
      · rintro ⟨ha, hb, hk⟩
        rcases Nat.eq_or_lt_of_le ha with rfl | hlt
        · exact Or.inl rfl
        · exact Or.inr ⟨by omega, by omega, fun k hk1 hk2 => hk k (by omega) hk2⟩
    · simp only [if_neg hc, List.mem_singleton]
      constructor
      · rintro rfl
        exact ⟨le_refl _, by omega, fun k hk1 hk2 => absurd hk2 (by omega)⟩
      · rintro ⟨ha, hb, hk⟩
        by_contra hne
        exact hc (hk start (le_refl _) (by omega))

/-- C5: the orchestrator's iteration loop proceeds to iteration `i + 1`
exactly when iteration `i` ran, `i + 1 < max_iterations`, the iteration-`i`
plan had a non-empty task list, `plan.continue_loop` and
`synthesis.continue_loop` were true, and iteration `i` produced at least one
evidence record. -/
theorem c5_iteration_loop_continuation (env : LeadOrchestrator.OrchestratorEnv)
    (maxIter i : Nat) :
    (i + 1) ∈ LeadOrchestrator.executedIterations env maxIter ↔
      (i ∈ LeadOrchestrator.executedIterations env maxIter ∧ i + 1 < maxIter ∧
       (env.step i).taskOutcomes ≠ [] ∧ (env.step i).planContinue = true ∧
       (env.step i).synthContinue = true ∧
       LeadOrchestrator.iterationEvidence env i ≠ []) := by
  unfold LeadOrchestrator.executedIterations
  rw [executedFrom_mem, executedFrom_mem]
  constructor
  · rintro ⟨h0, h1, h2⟩
    have hci := h2 i (by omega) (by omega)
    obtain ⟨a, b, c, d⟩ := hci
    exact ⟨⟨by omega, by omega, fun k hk1 hk2 => h2 k (by omega) (by omega)⟩,
      by omega, a, b, c, d⟩
  · rintro ⟨⟨g0, g1, g2⟩, h1, a, b, c, d⟩
    refine ⟨by omega, by omega, fun k hk1 hk2 => ?_⟩
    by_cases hk : k < i
    · exact g2 k (by omega) hk
    · have : k = i := by omega
      subst this
      exact ⟨a, b, c, d⟩

/-! ### C7: deterministic synthesis fallback -/

/-- C7: when the LLM path of `synthesize_iteration` fails, the returned
synthesis carries the literal fallback summary, the snippets of the first 5
evidence entries, `continue_loop = (iteration + 1 < max_iterations) ∧ evidence
non-empty`, and `stop_reason = "Iteration budget reached"` exactly when the
loop stops (else `None`). -/
theorem c7_synthesize_fallback (request : ResearchRequest) (iterN : Nat)
    (evidence : List LeadAgent.EvidenceDict) :
    (LeadAgent.synthesizeIteration none request iterN evidence).summary =
        LeadAgent.fallbackSummaryText ∧
    (LeadAgent.synthesizeIteration none request iterN evidence).key_findings =
        (evidence.take 5).map (fun e => e.snippet) ∧
    (LeadAgent.synthesizeIteration none request iterN evidence).open_questions = [] ∧
    ((LeadAgent.synthesizeIteration none request iterN evidence).continue_loop = true ↔
        (iterN + 1 < request.max_iterations ∧ evidence ≠ [])) ∧
    ((LeadAgent.synthesizeIteration none request iterN evidence).stop_reason =
        some LeadAgent.budgetReached ↔
      (LeadAgent.synthesizeIteration none request iterN evidence).continue_loop = false) ∧
    ((LeadAgent.synthesizeIteration none request iterN evidence).stop_reason = none ↔
      (LeadAgent.synthesizeIteration none request iterN evidence).continue_loop = true) := by
  refine ⟨rfl, rfl, rfl, ?_, ?_, ?_⟩
  · simp [LeadAgent.synthesizeIteration, List.isEmpty_iff]
  · by_cases h : (decide (iterN + 1 < request.max_iterations) && !evidence.isEmpty) = true <;>
      simp [LeadAgent.synthesizeIteration, h]
  · by_cases h : (decide (iterN + 1 < request.max_iterations) && !evidence.isEmpty) = true <;>
      simp [LeadAgent.synthesizeIteration, h]

/-! ### C8: cost coverage -/

/-- C8: whenever cost statistics are attached (a metered delta was observed
and the orchestrator counted model calls), `cost_coverage` is `"full"` iff
the metered call count is at least `agent_model_calls`, `"partial"` otherwise,
and `metered_calls` / `llm_tokens` / `usd_spent` carry the delta values. -/
theorem c8_cost_coverage (amc : Nat) (delta : LeadOrchestrator.CostSnapshot)
    (hamc : 0 < amc) (hmet : 0 < delta.llm_calls) :
    (LeadOrchestrator.appendCostStats amc delta).metered_calls = some delta.llm_calls ∧
    ((LeadOrchestrator.appendCostStats amc delta).cost_coverage =
        some LeadOrchestrator.fullCoverage ↔ amc ≤ delta.llm_calls) ∧
    ((LeadOrchestrator.appendCostStats amc delta).cost_coverage =
        some LeadOrchestrator.partialCoverage ↔ delta.llm_calls < amc) ∧
    (0 < delta.total_tokens →
      (LeadOrchestrator.appendCostStats amc delta).llm_tokens = some delta.total_tokens) ∧
    (0 < delta.cost_events →
      (LeadOrchestrator.appendCostStats amc delta).usd_spent =
        some (LeadOrchestrator.pyRound6 delta.total_cost_usd)) := by
  have hne : LeadOrchestrator.fullCoverage ≠ LeadOrchestrator.partialCoverage := by decide
  simp only [LeadOrchestrator.appendCostStats]
  refine ⟨by simp [hmet], ?_, ?_, fun h => by simp [h], fun h => by simp [h]⟩
  · by_cases h : delta.llm_calls < amc
    · simp [h, hamc, hmet, hne, Ne.symm hne]
    · simp [h, hamc, hmet, hne, Ne.symm hne]
      omega
  · by_cases h : delta.llm_calls < amc
    · simp [h, hamc, hmet, hne, Ne.symm hne]
    · simp [h, hamc, hmet, hne, Ne.symm hne]

theorem c8_cost_coverage_witness :
    (0 : Nat) < 4 ∧ 0 < c8Delta.llm_calls ∧
    (LeadOrchestrator.appendCostStats 4 c8Delta).metered_calls = some 5 ∧
    (LeadOrchestrator.appendCostStats 4 c8Delta).cost_coverage =
      some LeadOrchestrator.fullCoverage ∧
    (LeadOrchestrator.appendCostStats 4 c8Delta).llm_tokens = some 3200 ∧
    (LeadOrchestrator.appendCostStats 4 c8Delta).usd_spent = some (9 / 200 : ℚ) := by
  have h := c8_cost_coverage 4 c8Delta (by decide) (by decide)
  refine ⟨by decide, by decide, h.1, ?_, h.2.2.2.1 (by decide), ?_⟩
  · exact h.2.1.mpr (by decide)
  · rw [h.2.2.2.2 (by decide)]
    norm_num [LeadOrchestrator.pyRound6, c8Delta]

/-! ### C9: empty evidence short-circuit -/

/-- C9: `build_citations` with an empty evidence list returns the empty list
immediately, with zero LLM invocations and no fallback entries. -/
theorem c9_build_citations_empty (today : Str) (host : Str → Str)
    (llm : Option (List CitationAgent.CitationCandidate)) (q : Str) :
    CitationAgent.buildCitations today host llm q [] =
      { entries := [], llmCalls := 0 } := rfl

/-! ### C1: marker/citation invariant of `ReportService.render` -/

theorem dictGet_some_mem {α β : Type} [DecidableEq α] (m : List (α × β)) (k : α) (v : β)
    (h : dictGet m k = some v) : (k, v) ∈ m := by
  unfold dictGet at h
  rw [Option.map_eq_some'] at h
  obtain ⟨p, hp, hv⟩ := h
  have hmem := List.mem_of_find?_eq_some hp
  have hkey := List.find?_some hp
  rw [List.mem_reverse] at hmem
  have hpk : p = (k, v) := by
    obtain ⟨p1, p2⟩ := p
    simp only [decide_eq_true_eq] at hkey
    simp only at hv
    rw [hkey, hv]
  rw [hpk] at hmem
  exact hmem

theorem dictGet_isSome {α β : Type} [DecidableEq α] (m : List (α × β)) (k : α) (v : β)
    (h : (k, v) ∈ m) : ∃ w, dictGet m k = some w := by
  unfold dictGet
  have hs : ((m.reverse).find? (fun p => p.1 = k)).isSome = true := by
    rw [List.find?_isSome]
    exact ⟨(k, v), List.mem_reverse.mpr h, by simp⟩
  obtain ⟨p, hp⟩ := Option.isSome_iff_exists.mp hs
  exact ⟨p.2, by rw [hp]; rfl⟩

/-- When every used marker has a citation, the kept entries of
`_filter_and_reindex_used_citations` are numbered `idx, idx+1, ...` in order
and each one is a renumbered copy of a provided citation. -/
theorem keptEntriesAux_cover (citById : List (Int × CitationEntry)) (olds : List Int) :
    ∀ (idx : Nat),
      (∀ old ∈ olds, ∃ e, dictGet citById old = some e) →
      ((ReportService.keptEntriesAux citById olds idx).1.map (fun e => e.citation_id) =
          (List.range olds.length).map (fun (n : Nat) => (n : Int) + (idx : Int))) ∧
      ∀ entry ∈ (ReportService.keptEntriesAux citById olds idx).1,
        ∃ k e, dictGet citById k = some e ∧
          entry = { e with citation_id := entry.citation_id } := by
  induction olds with
  | nil =>
    intro idx _
    exact ⟨rfl, by intro entry hmem; simp [ReportService.keptEntriesAux] at hmem⟩
  | cons old rest ih =>
    intro idx hcov
    obtain ⟨e, he⟩ := hcov old (List.mem_cons_self old rest)
    have hrest := ih (idx + 1) (fun o ho => hcov o (List.mem_cons_of_mem old ho))
    constructor
    · simp only [ReportService.keptEntriesAux, he, List.map_cons, List.length_cons]
      rw [hrest.1, List.range_succ_eq_map, List.map_cons, List.map_map]
      simp only [List.cons.injEq]
      constructor
      · push_cast; ring
      · apply List.map_congr_left
        intro a _
        simp only [Function.comp_apply, Nat.succ_eq_add_one]
        push_cast; ring
    · intro entry hentry
      simp only [ReportService.keptEntriesAux, he] at hentry
      rcases List.mem_cons.mp hentry with hEq | hmem
      · exact ⟨old, e, he, by rw [hEq]⟩
      · exact hrest.2 entry hmem

/-- C1: counterexample. With one citation (id 1) a nested draft `[5[77]] then [1]`
renders with retained-citation ids `[2]` — not contiguous from 1 — because the
filter stage enumerates skipped markers too; and a doubly nested draft
`[3[5[77]]] ok` renders to `[3] ok`, a digit marker with no citation retained
at all, because deleting an unknown marker fabricates a new one. -/
theorem c1_counterexample :
    ((ReportService.renderPair cReq c1Draft c1Cits).2.map (fun e => e.citation_id) = [2] ∧
      ¬ contiguousIds (ReportService.renderPair cReq c1Draft c1Cits).2) ∧
    (ReportService.render cReq c1Draft2 c1Cits = ("[3] ok".toList) ∧
      hasDigitMarker (ReportService.render cReq c1Draft2 c1Cits) = true ∧
      (ReportService.renderPair cReq c1Draft2 c1Cits).2 = []) := by
  exact ⟨⟨by rfl, by decide⟩, by rfl, by rfl, by rfl⟩

/-- C1: amended. At the filter stage of `render`, provided the body has at
least one all-digit marker, the citation list is non-empty, and every used
marker id has a citation, the retained citations are numbered exactly
`1..M` in order with `M` the number of distinct used markers, and each
retained entry is a renumbered copy of a provided citation. Without the
coverage premise the enumeration leaves gaps (see the counterexample). -/
theorem c1_filter_amended (body : Str) (cits : List CitationEntry)
    (hused : collectDigitMarkers body ≠ [])
    (hcits : cits ≠ [])
    (hcover : ∀ k ∈ collectDigitMarkers body, ∃ e ∈ cits, e.citation_id = k) :
    contiguousIds (ReportService.filterAndReindexUsedCitations body cits).2 ∧
    (ReportService.filterAndReindexUsedCitations body cits).2.length =
      (dedupFirst (collectDigitMarkers body)).length ∧
    ∀ entry ∈ (ReportService.filterAndReindexUsedCitations body cits).2,
      ∃ e ∈ cits, entry = { e with citation_id := entry.citation_id } := by
  have hk : (ReportService.filterAndReindexUsedCitations body cits).2 =
      (ReportService.keptCitations body cits).1 := by
    unfold ReportService.filterAndReindexUsedCitations
    rw [if_neg (by simp [hused, hcits])]
  have hcov' : ∀ old ∈ dedupFirst (collectDigitMarkers body),
      ∃ e, dictGet (cits.map (fun e => (e.citation_id, e))) old = some e := by
    intro old hold
    obtain ⟨e, hm, hid⟩ := hcover old ((mem_dedupFirst old _).mp hold)
    refine dictGet_isSome _ old e ?_
    rw [List.mem_map]
    exact ⟨e, hm, by rw [hid]⟩
  have hmain := keptEntriesAux_cover (cits.map (fun e => (e.citation_id, e)))
      (dedupFirst (collectDigitMarkers body)) 1 hcov'
  have hlen : (ReportService.keptCitations body cits).1.length =
      (dedupFirst (collectDigitMarkers body)).length := by
    unfold ReportService.keptCitations
    have := congrArg List.length hmain.1
    simpa using this
  rw [hk]
  refine ⟨?_, hlen, ?_⟩
  · unfold contiguousIds
    rw [hlen]
    unfold ReportService.keptCitations
    rw [hmain.1]
    simp
  · intro entry hmem
    unfold ReportService.keptCitations at hmem
    obtain ⟨k, e, hget, hEq⟩ := hmain.2 entry hmem
    have hpair := dictGet_some_mem _ _ _ hget
    rw [List.mem_map] at hpair
    obtain ⟨e', he', hpe⟩ := hpair
    have he'e : e' = e := congrArg Prod.snd hpe
    exact ⟨e, he'e ▸ he', hEq⟩

/-- C1 witness: body `see [2] x [1] y [2]` with citations 1 and 2 supplied
covers every marker; the amended theorem applies and yields contiguous kept
ids of count 2. -/
theorem c1_filter_amended_witness :
    collectDigitMarkers c1WBody ≠ [] ∧
    contiguousIds (ReportService.filterAndReindexUsedCitations c1WBody c1WCits).2 ∧
    (ReportService.filterAndReindexUsedCitations c1WBody c1WCits).2.length =
      (dedupFirst (collectDigitMarkers c1WBody)).length :=
  ⟨by decide,
   (c1_filter_amended c1WBody c1WCits (by decide) (by decide) (by decide)).1,
   (c1_filter_amended c1WBody c1WCits (by decide) (by decide) (by decide)).2.1⟩

/-! ### C10: digit markers under an empty citation list -/

theorem markerHeadAt_ne (c : Char) (xs : Str) (h : c ≠ '[') :
    markerHeadAt (c :: xs) = false := by
  unfold markerHeadAt
  split
  · rename_i heq
    injection heq with h1 h2
    exact absurd h1 h
  · rfl

theorem digitsThenRB_append (x y : Str) (h : digitsThenRB x = true) :
    digitsThenRB (x ++ y) = true := by
  induction x with
  | nil => simp [digitsThenRB] at h
  | cons c rest ih =>
    simp only [digitsThenRB] at h
    simp only [List.cons_append, digitsThenRB]
    by_cases hc : c = ']'
    · rw [if_pos hc] at h ⊢
    · rw [if_neg hc] at h ⊢
      by_cases hd : c.isDigit = true
      · rw [if_pos hd] at h ⊢; exact ih h
      · rw [if_neg hd] at h; cases h

theorem digitsThenRB_build (w z : Str) (hw : ∀ c ∈ w, c.isDigit = true) :
    digitsThenRB (w ++ ']' :: z) = true := by
  induction w with
  | nil => simp [digitsThenRB]
  | cons c rest ih =>
    have hc := hw c (by simp)
    have hcne : c ≠ ']' := by
      intro hEq; rw [hEq] at hc; exact absurd hc (by decide)
    simp only [List.cons_append, digitsThenRB, if_neg hcne, if_pos hc]
    exact ih (fun d hd => hw d (by simp [hd]))

theorem markerHeadAt_build (w z : Str) (hne : w ≠ []) (hw : ∀ c ∈ w, c.isDigit = true) :
    markerHeadAt ('[' :: w ++ ']' :: z) = true := by
  cases w with
  | nil => exact absurd rfl hne
  | cons d rest =>
    simp only [List.cons_append, markerHeadAt, Bool.and_eq_true]
    refine ⟨hw d (by simp), ?_⟩
    have := digitsThenRB_build (d :: rest) z hw
    simpa using this

theorem digitsThenRB_decomp (x : Str) (h : digitsThenRB x = true) :
    ∃ w z, x = w ++ ']' :: z ∧ ∀ c ∈ w, c.isDigit = true := by
  induction x with
  | nil => simp [digitsThenRB] at h
  | cons c rest ih =>
    simp only [digitsThenRB] at h
    by_cases hc : c = ']'
    · exact ⟨[], rest, by simp [hc], by simp⟩
    · rw [if_neg hc] at h
      by_cases hd : c.isDigit = true
      · rw [if_pos hd] at h
        obtain ⟨w, z, hxz, hwd⟩ := ih h
        refine ⟨c :: w, z, by simp [hxz], ?_⟩
        intro d hdm
        rcases List.mem_cons.mp hdm with rfl | hdm'
        · exact hd
        · exact hwd d hdm'
      · rw [if_neg hd] at h; cases h

theorem markerHeadAt_decomp (x : Str) (h : markerHeadAt x = true) :
    ∃ w z, x = '[' :: w ++ ']' :: z ∧ w ≠ [] ∧ ∀ c ∈ w, c.isDigit = true := by
  cases x with
  | nil => simp [markerHeadAt] at h
  | cons a xs =>
    cases xs with
    | nil => simp [markerHeadAt] at h
    | cons b rest =>
      by_cases ha : a = '['
      · subst ha
        simp only [markerHeadAt, Bool.and_eq_true] at h
        obtain ⟨hd, hrb⟩ := h
        obtain ⟨w, z, hxz, hwd⟩ := digitsThenRB_decomp (b :: rest) hrb
        refine ⟨w, z, by rw [List.cons_append, ← hxz], ?_, hwd⟩
        intro hnil
        rw [hnil, List.nil_append] at hxz
        injection hxz with h1 _
        rw [h1] at hd
        exact absurd hd (by decide)
      · rw [markerHeadAt_ne a _ ha] at h; cases h

theorem markerHeadAt_append (x y : Str) (h : markerHeadAt x = true) :
    markerHeadAt (x ++ y) = true := by
  obtain ⟨w, z, rfl, hne, hwd⟩ := markerHeadAt_decomp x h
  rw [show ('[' :: w ++ ']' :: z) ++ y = '[' :: w ++ ']' :: (z ++ y) by simp]
  exact markerHeadAt_build w (z ++ y) hne hwd

theorem hasDigitMarker_append_right (x y : Str) (h : hasDigitMarker y = true) :
    hasDigitMarker (x ++ y) = true := by
  induction x with
  | nil => simpa
  | cons c rest ih =>
    simp only [List.cons_append, hasDigitMarker, List.append_eq]
    rw [ih]
    simp

theorem hasDigitMarker_append_left (x y : Str) (h : hasDigitMarker x = true) :
    hasDigitMarker (x ++ y) = true := by
  induction x with
  | nil => simp [hasDigitMarker] at h
  | cons c rest ih =>
    simp only [hasDigitMarker, Bool.or_eq_true] at h
    simp only [List.cons_append, hasDigitMarker, Bool.or_eq_true]
    rcases h with h | h
    · left
      have := markerHeadAt_append (c :: rest) y h
      simpa using this
    · right; exact ih h

theorem noMarker_parts (x y : Str) (h : hasDigitMarker (x ++ y) = false) :
    hasDigitMarker x = false ∧ hasDigitMarker y = false := by
  constructor
  · cases hx : hasDigitMarker x with
    | false => rfl
    | true => rw [hasDigitMarker_append_left x y hx] at h; cases h
  · cases hy : hasDigitMarker y with
    | false => rfl
    | true => rw [hasDigitMarker_append_right x y hy] at h; cases h

theorem noLB_append (w z : Str) (hw : ∀ c ∈ w, c ≠ '[') :
    hasDigitMarker (w ++ z) = hasDigitMarker z := by
  induction w with
  | nil => rfl
  | cons c rest ih =>
    simp only [List.cons_append, hasDigitMarker, List.append_eq]
    rw [markerHeadAt_ne c _ (hw c (by simp)), ih (fun d hd => hw d (by simp [hd]))]
    simp

theorem digitsThenRB_nl (x y : Str) (h : digitsThenRB (x ++ '\n' :: y) = true) :
    ∃ w z, x = w ++ ']' :: z ∧ ∀ c ∈ w, c.isDigit = true := by
  induction x with
  | nil =>
    simp only [List.nil_append, digitsThenRB] at h
    rw [if_neg (by decide), if_neg (by decide)] at h
    cases h
  | cons c rest ih =>
    simp only [List.cons_append, digitsThenRB] at h
    by_cases hc : c = ']'
    · exact ⟨[], rest, by simp [hc], by simp⟩
    · rw [if_neg hc] at h
      by_cases hd : c.isDigit = true
      · rw [if_pos hd] at h
        obtain ⟨w, z, hx, hw⟩ := ih h
        refine ⟨c :: w, z, by simp [hx], ?_⟩
        intro d hdm
        rcases List.mem_cons.mp hdm with rfl | hdm'
        · exact hd
        · exact hw d hdm'
      · rw [if_neg hd] at h; cases h

theorem marker_split_nl (l r : Str) (h : hasDigitMarker (l ++ '\n' :: r) = true) :
    hasDigitMarker l = true ∨ hasDigitMarker r = true := by
  induction l with
  | nil =>
    simp only [List.nil_append, hasDigitMarker, Bool.or_eq_true] at h
    rcases h with h | h
    · rw [markerHeadAt_ne '\n' r (by decide)] at h; cases h
    · exact Or.inr h
  | cons c rest ih =>
    simp only [List.cons_append, hasDigitMarker, Bool.or_eq_true, List.append_eq] at h
    rcases h with h | h
    · obtain ⟨w, z, hEq, hne, hw⟩ := markerHeadAt_decomp _ (by simpa using h)
      injection hEq with h1 h2
      have hrb : digitsThenRB (rest ++ '\n' :: r) = true := by
        rw [h2]; exact digitsThenRB_build w z hw
      obtain ⟨w', z', hx, hw'⟩ := digitsThenRB_nl rest r hrb
      have hw'ne : w' ≠ [] := by
        intro hnil
        rw [hnil, List.nil_append] at hx
        cases w with
        | nil => exact hne rfl
        | cons d w'' =>
          rw [hx] at h2
          simp only [List.cons_append] at h2
          injection h2 with hh _
          have hdd := hw d (by simp)
          rw [← hh] at hdd
          exact absurd hdd (by decide)
      left
      rw [h1, hx]
      have hm := markerHeadAt_build w' z' hw'ne hw'
      simp only [hasDigitMarker, Bool.or_eq_true]
      exact Or.inl (by simpa using hm)
    · rcases ih h with h' | h'
      · left; simp [hasDigitMarker, h']
      · exact Or.inr h'

theorem joinNL_noMarker (ls : List Str) (h : ∀ l ∈ ls, hasDigitMarker l = false) :
    hasDigitMarker (joinNL ls) = false := by
  induction ls with
  | nil => rfl
  | cons l ls' ih =>
    cases ls' with
    | nil => exact h l (by simp)
    | cons m ms =>
      have hj : joinNL (l :: m :: ms) = l ++ '\n' :: joinNL (m :: ms) := rfl
      rw [hj]
      cases hx : hasDigitMarker (l ++ '\n' :: joinNL (m :: ms)) with
      | false => rfl
      | true =>
        rcases marker_split_nl _ _ hx with hl | hr
        · rw [h l (by simp)] at hl; cases hl
        · rw [ih (fun x hxm => h x (by simp [hxm]))] at hr; cases hr

theorem splitlinesAux_noMarker :
    ∀ (fuel : Nat) (acc s : Str), hasDigitMarker (acc.reverse ++ s) = false →
      ∀ l ∈ splitlinesAux fuel acc s, hasDigitMarker l = false := by
  intro fuel
  induction fuel with
  | zero =>
    intro acc s h l hl
    simp only [splitlinesAux, List.mem_singleton] at hl
    rw [hl]; exact h
  | succ f ih =>
    intro acc s h l hl
    cases s with
    | nil =>
      simp only [splitlinesAux] at hl
      split at hl
      · exact absurd hl (List.not_mem_nil l)
      · simp only [List.mem_singleton] at hl
        rw [hl]
        simpa using h
    | cons c rest =>
      have hacc : hasDigitMarker acc.reverse = false := (noMarker_parts _ _ h).1
      have hcrest : hasDigitMarker (c :: rest) = false := (noMarker_parts _ _ h).2
      have hrest : hasDigitMarker rest = false := by
        simp only [hasDigitMarker, Bool.or_eq_false_iff] at hcrest
        exact hcrest.2
      simp only [splitlinesAux] at hl
      by_cases hcr : c = '\x0d'
      · rw [if_pos hcr] at hl
        split at hl
        · simp only [List.mem_cons] at hl
          rcases hl with rfl | hl'
          · exact hacc
          · refine ih [] _ ?_ l hl'
            simp only [hasDigitMarker, Bool.or_eq_false_iff] at hrest
            simpa using hrest.2
        · simp only [List.mem_cons] at hl
          rcases hl with rfl | hl'
          · exact hacc
          · exact ih [] rest (by simpa using hrest) l hl'
      · rw [if_neg hcr] at hl
        by_cases hlb : lineBreakChar c = true
        · rw [if_pos hlb] at hl
          simp only [List.mem_cons] at hl
          rcases hl with rfl | hl'
          · exact hacc
          · exact ih [] rest (by simpa using hrest) l hl'
        · rw [if_neg hlb] at hl
          refine ih (c :: acc) rest ?_ l hl
          simpa using h

theorem splitlines_noMarker (s : Str) (h : hasDigitMarker s = false) :
    ∀ l ∈ splitlinesPy s, hasDigitMarker l = false :=
  splitlinesAux_noMarker (s.length + 1) [] s (by simpa)

theorem pyStrip_noMarker (s : Str) (h : hasDigitMarker s = false) :
    hasDigitMarker (pyStrip s) = false := by
  unfold pyStrip
  have hts : hasDigitMarker (s.dropWhile pySpaceChar) = false := by
    obtain ⟨u, hu⟩ := List.dropWhile_suffix (l := s) pySpaceChar
    exact (noMarker_parts u _ (by rw [hu]; exact h)).2
  have hpre : ((s.dropWhile pySpaceChar).reverse.dropWhile pySpaceChar).reverse <+:
      s.dropWhile pySpaceChar := by
    have hsfx := List.dropWhile_suffix (l := (s.dropWhile pySpaceChar).reverse) pySpaceChar
    have := List.reverse_prefix.mpr hsfx
    simpa using this
  obtain ⟨v, hv⟩ := hpre
  exact (noMarker_parts _ v (by rw [hv]; exact hts)).1

theorem stripRefs_noMarker (s : Str) (h : hasDigitMarker s = false) :
    hasDigitMarker (ReportService.stripReferencesSection s) = false := by
  unfold ReportService.stripReferencesSection
  apply pyStrip_noMarker
  apply joinNL_noMarker
  intro l hl
  exact splitlines_noMarker s h l ((List.takeWhile_sublist _).subset hl)

theorem runLen_cons (p : Char → Bool) (c : Char) (s : Str) :
    runLen p (c :: s) = if p c = true then runLen p s + 1 else 0 := by
  unfold runLen
  rw [List.takeWhile_cons]
  split
  · simp
  · simp

theorem digitsThenRB_eq (s : Str) :
    digitsThenRB s = headIs ']' (s.drop (runLen Char.isDigit s)) := by
  induction s with
  | nil => rfl
  | cons c rest ih =>
    simp only [digitsThenRB, runLen_cons]
    by_cases hc : c = ']'
    · rw [if_pos hc]
      have hcd : c.isDigit = false := by rw [hc]; decide
      rw [hcd]
      simp [headIs, hc]
    · rw [if_neg hc]
      by_cases hd : c.isDigit = true
      · rw [if_pos hd, hd, if_pos rfl, List.drop_succ_cons]
        exact ih
      · rw [if_neg hd]
        have hcd : c.isDigit = false := by revert hd; cases c.isDigit <;> simp
        rw [hcd]
        simp [headIs, hc]

theorem markerHead_guard (rest : Str) :
    markerHeadAt ('[' :: rest) =
      (decide (1 ≤ runLen Char.isDigit rest) &&
        headIs ']' (rest.drop (runLen Char.isDigit rest))) := by
  cases rest with
  | nil => rfl
  | cons d rest' =>
    simp only [markerHeadAt]
    rw [show digitsThenRB (d :: rest') =
      headIs ']' ((d :: rest').drop (runLen Char.isDigit (d :: rest'))) from
      digitsThenRB_eq (d :: rest')]
    rw [runLen_cons]
    by_cases hd : d.isDigit = true
    · rw [if_pos hd, hd]
      simp [List.drop_succ_cons]
    · have hcd : d.isDigit = false := by revert hd; cases d.isDigit <;> simp
      rw [if_neg hd, hcd]
      simp

theorem trailStep_copyOrNL : CopyOrNL trailStep := by
  intro c rest
  simp only [trailStep]
  by_cases hsp : spaceTabChar c = true
  · rw [if_pos hsp]
    by_cases hnl : headIs '\n' ((c :: rest).drop (runLen spaceTabChar (c :: rest))) = true
    · rw [if_pos hnl]
      right
      refine ⟨by simp, by simp, runLen spaceTabChar (c :: rest), ?_⟩
      simp [List.drop_succ_cons]
    · rw [if_neg hnl]; left; rfl
  · rw [if_neg hsp]; left; rfl

theorem blankStep_copyOrNL : CopyOrNL blankStep := by
  intro c rest
  simp only [blankStep]
  by_cases hc : c = '\n'
  · rw [if_pos hc]
    by_cases hr : 3 ≤ runLen newlineChar (c :: rest)
    · rw [if_pos hr]
      right
      refine ⟨by simp, by simp, runLen newlineChar (c :: rest) - 1, ?_⟩
      obtain ⟨k, hk⟩ : ∃ k, runLen newlineChar (c :: rest) = k + 1 :=
        ⟨runLen newlineChar (c :: rest) - 1, by omega⟩
      rw [hk]
      simp [List.drop_succ_cons]
    · rw [if_neg hr]; left; rfl
  · rw [if_neg hc]; left; rfl

theorem scan_digitPrefix (step : Str → Str × Str) (hs : StepShrinks step)
    (hc : CopyOrNL step) :
    ∀ (N : Nat) (s w z : Str), s.length ≤ N → scanRun step s = w ++ ']' :: z →
      (∀ c ∈ w, c.isDigit = true) → ∃ z', s = w ++ ']' :: z' := by
  intro N
  induction N with
  | zero =>
    intro s w z hlen hscan _
    have hnil : s = [] := List.length_eq_zero.mp (by omega)
    subst hnil
    simp [scanRun, scanGo] at hscan
  | succ N ih =>
    intro s w z hlen hscan hw
    cases s with
    | nil => simp [scanRun, scanGo] at hscan
    | cons c rest =>
      rw [scanRun_cons step hs] at hscan
      rcases hc c rest with hcopy | ⟨hne, hnl, n, hdrop⟩
      · rw [hcopy] at hscan
        simp only [List.singleton_append] at hscan
        cases w with
        | nil =>
          simp only [List.nil_append] at hscan
          injection hscan with h1 h2
          exact ⟨rest, by simp [h1]⟩
        | cons d w' =>
          simp only [List.cons_append] at hscan
          injection hscan with h1 h2
          obtain ⟨z', hz'⟩ := ih rest w' z (by
            simp only [List.length_cons] at hlen; omega) h2
            (fun x hx => hw x (by simp [hx]))
          exact ⟨z', by rw [h1, hz']; rfl⟩
      · cases hch : (step (c :: rest)).1 with
        | nil => exact absurd hch hne
        | cons e es =>
          rw [hch] at hscan
          have he : e = '\n' := hnl e (by rw [hch]; simp)
          simp only [List.cons_append] at hscan
          cases w with
          | nil =>
            injection hscan with h1 _
            rw [he] at h1
            exact absurd h1 (by decide)
          | cons d w' =>
            injection hscan with h1 _
            have hd := hw d (by simp)
            rw [← h1, he] at hd
            exact absurd hd (by decide)

theorem scan_noMarker (step : Str → Str × Str) (hs : StepShrinks step)
    (hc : CopyOrNL step) :
    ∀ (N : Nat) (s : Str), s.length ≤ N → hasDigitMarker s = false →
      hasDigitMarker (scanRun step s) = false := by
  intro N
  induction N with
  | zero =>
    intro s hlen _
    have hnil : s = [] := List.length_eq_zero.mp (by omega)
    subst hnil
    rfl
  | succ N ih =>
    intro s hlen h
    cases s with
    | nil => rfl
    | cons c rest =>
      have hsplit : markerHeadAt (c :: rest) = false ∧ hasDigitMarker rest = false := by
        simpa only [hasDigitMarker, Bool.or_eq_false_iff] using h
      obtain ⟨hmh, hrest⟩ := hsplit
      rw [scanRun_cons step hs]
      rcases hc c rest with hcopy | ⟨hne, hnl, n, hdrop⟩
      · rw [hcopy]
        simp only [List.singleton_append]
        have hout := ih rest (by simp only [List.length_cons] at hlen; omega) hrest
        cases hmb : markerHeadAt (c :: scanRun step rest) with
        | false => simp [hasDigitMarker, hout, hmb]
        | true =>
          obtain ⟨w, z, hEq, hwne, hwd⟩ := markerHeadAt_decomp _ hmb
          rw [List.cons_append] at hEq
          injection hEq with h1 h2
          obtain ⟨z', hz'⟩ := scan_digitPrefix step hs hc rest.length rest w z
            (le_refl _) h2 hwd
          have hmr : markerHeadAt (c :: rest) = true := by
            rw [h1, hz']
            have := markerHeadAt_build w z' hwne hwd
            simpa using this
          rw [hmr] at hmh; cases hmh
      · have hs2 : hasDigitMarker ((step (c :: rest)).2) = false := by
          rw [hdrop]
          cases hdm : hasDigitMarker (rest.drop n) with
          | false => rfl
          | true =>
            have := hasDigitMarker_append_right (rest.take n) (rest.drop n) hdm
            rw [List.take_append_drop] at this
            rw [this] at hrest; cases hrest
        have hlen2 : (step (c :: rest)).2.length ≤ N := by
          have := hs (c :: rest) (by simp)
          simp only [List.length_cons] at hlen this
          omega
        have hout := ih _ hlen2 hs2
        rw [noLB_append _ _ (fun ch hch => by rw [hnl ch hch]; decide)]
        exact hout

theorem scanRun_id_pred (step : Str → Str × Str) (hs : StepShrinks step)
    (hcopy : ∀ c rest, hasDigitMarker (c :: rest) = false → step (c :: rest) = ([c], rest)) :
    ∀ s, hasDigitMarker s = false → scanRun step s = s := by
  intro s
  induction s with
  | nil => intro _; rfl
  | cons c rest ih =>
    intro h
    have hrest : hasDigitMarker rest = false := by
      simp only [hasDigitMarker, Bool.or_eq_false_iff] at h
      exact h.2
    rw [scanRun_cons step hs, hcopy c rest h]
    simp only [List.singleton_append]
    rw [ih hrest]

theorem collapseStep_copy (c : Char) (rest : Str)
    (h : hasDigitMarker (c :: rest) = false) : collapseStep (c :: rest) = ([c], rest) := by
  have hmh : markerHeadAt (c :: rest) = false := by
    simp only [hasDigitMarker, Bool.or_eq_false_iff] at h
    exact h.1
  simp only [collapseStep]
  by_cases hc : c = '['
  · subst hc
    rw [markerHead_guard] at hmh
    rw [if_pos rfl, if_neg (by rw [hmh]; simp)]
  · rw [if_neg hc]

theorem wordChar_not_space (c : Char) (h : wordChar c = true) : pySpaceChar c = false := by
  cases hsp : pySpaceChar c with
  | false => rfl
  | true =>
    simp only [pySpaceChar, Bool.or_eq_true, decide_eq_true_eq] at hsp
    rcases hsp with ((((h1 | h1) | h1) | h1) | h1) | h1 <;>
      (subst h1; exact absurd h (by decide))

theorem wordChar_ne_rb (c : Char) (h : wordChar c = true) : c ≠ ']' := by
  intro hEq; rw [hEq] at h; exact absurd h (by decide)

theorem wordChar_ne_lb (c : Char) (h : wordChar c = true) : c ≠ '[' := by
  intro hEq; rw [hEq] at h; exact absurd h (by decide)

theorem dropWhile_eq_self_of (p : Char → Bool) (s : Str)
    (h : ∀ c ∈ s, p c = false) : s.dropWhile p = s := by
  cases s with
  | nil => rfl
  | cons c rest =>
    rw [List.dropWhile_cons, if_neg (by simp [h c (by simp)])]

theorem pyStrip_of_nospace (s : Str) (h : ∀ c ∈ s, pySpaceChar c = false) :
    pyStrip s = s := by
  unfold pyStrip
  rw [dropWhile_eq_self_of pySpaceChar s h,
    dropWhile_eq_self_of pySpaceChar s.reverse (fun c hc => h c (List.mem_reverse.mp hc)),
    List.reverse_reverse]

theorem take_runLen (p : Char → Bool) (s : Str) : s.take (runLen p s) = s.takeWhile p :=
  (List.prefix_iff_eq_take.mp (List.takeWhile_prefix p)).symm

theorem digitsThenRB_word_false (w z : Str) (hword : ∀ c ∈ w, wordChar c = true)
    (hnd : ¬ ∀ c ∈ w, c.isDigit = true) : digitsThenRB (w ++ z) = false := by
  induction w with
  | nil => exact absurd (by simp) hnd
  | cons c rest ih =>
    have hcw := hword c (by simp)
    have hcne : c ≠ ']' := wordChar_ne_rb c hcw
    simp only [List.cons_append, digitsThenRB, if_neg hcne]
    by_cases hd : c.isDigit = true
    · rw [if_pos hd]
      refine ih (fun d hdm => hword d (by simp [hdm])) ?_
      intro hall
      refine hnd ?_
      intro d hdm
      rcases List.mem_cons.mp hdm with rfl | hdm'
      · exact hd
      · exact hall d hdm'
    · rw [if_neg hd]

theorem normalizeRepl_empty (tok : Str) (hne : tok ≠ [])
    (hword : ∀ c ∈ tok, wordChar c = true) :
    ReportService.normalizeRepl [] [] tok = [] ∨
    (ReportService.normalizeRepl [] [] tok = '[' :: tok ++ [']'] ∧
      ¬ ∀ c ∈ tok, c.isDigit = true) := by
  have hstrip : pyStrip tok = tok :=
    pyStrip_of_nospace tok (fun c hc => wordChar_not_space c (hword c hc))
  simp only [ReportService.normalizeRepl, hstrip]
  rw [if_neg hne]
  by_cases hd : tok.all Char.isDigit = true
  · rw [if_pos hd]
    left
    rw [if_neg (List.not_mem_nil tok)]
  · rw [if_neg hd]
    by_cases hh : ReportService.hex32 tok = true
    · left
      simp [dictGet, hh]
    · right
      refine ⟨by simp [dictGet, hh], ?_⟩
      intro hall
      exact hd (List.all_eq_true.mpr hall)

theorem wellMarkedAux_stable :
    ∀ (f1 f2 : Nat) (s : Str), s.length ≤ f1 → s.length ≤ f2 →
      wellMarkedAux f1 s = wellMarkedAux f2 s := by
  intro f1
  induction f1 with
  | zero =>
    intro f2 s h1 _
    have hnil : s = [] := List.length_eq_zero.mp (by omega)
    subst hnil
    cases f2 with
    | zero => rfl
    | succ g => rfl
  | succ f ih =>
    intro f2 s h1 h2
    cases s with
    | nil =>
      cases f2 with
      | zero => rfl
      | succ g => rfl
    | cons c rest =>
      cases f2 with
      | zero => simp at h2
      | succ g =>
        simp only [wellMarkedAux]
        simp only [List.length_cons] at h1 h2
        by_cases hc : c = '['
        · rw [if_pos hc, if_pos hc]
          congr 1
          refine ih g _ ?_ ?_ <;> (simp only [List.length_drop]; omega)
        · rw [if_neg hc, if_neg hc]
          exact ih g rest (by omega) (by omega)

theorem normScan_noMarker :
    ∀ (N : Nat) (s : Str), s.length ≤ N → wellMarked s = true →
      hasDigitMarker (scanRun (markerStep (ReportService.normalizeRepl [] [])) s) = false := by
  intro N
  induction N with
  | zero =>
    intro s hlen _
    have hnil : s = [] := List.length_eq_zero.mp (by omega)
    subst hnil
    rfl
  | succ N ih =>
    intro s hlen hw
    cases s with
    | nil => rfl
    | cons c rest =>
      rw [scanRun_cons _ (markerStep_shrinks _)]
      by_cases hc : c = '['
      · subst hc
        have hw' : wellMarkedAux (rest.length + 1) ('[' :: rest) = true := by
          unfold wellMarked at hw
          simpa using hw
        rw [show wellMarkedAux (rest.length + 1) ('[' :: rest) =
          ((decide (1 ≤ runLen wordChar rest) && decide (runLen wordChar rest ≤ 64) &&
            headIs ']' (rest.drop (runLen wordChar rest))) &&
            wellMarkedAux rest.length (rest.drop (runLen wordChar rest + 1))) from by
          simp [wellMarkedAux]] at hw'
        rw [Bool.and_eq_true] at hw'
        obtain ⟨hguard, hrec⟩ := hw'
        have hstepEq : markerStep (ReportService.normalizeRepl [] []) ('[' :: rest) =
            (ReportService.normalizeRepl [] [] (rest.take (runLen wordChar rest)),
              rest.drop (runLen wordChar rest + 1)) := by
          simp only [markerStep]
          rw [if_pos hguard]
          simp
        rw [hstepEq]
        show hasDigitMarker
          (ReportService.normalizeRepl [] [] (rest.take (runLen wordChar rest)) ++
            scanRun (markerStep (ReportService.normalizeRepl [] []))
              (rest.drop (runLen wordChar rest + 1))) = false
        have h1r : 1 ≤ runLen wordChar rest := by
          rw [Bool.and_eq_true, Bool.and_eq_true] at hguard
          exact of_decide_eq_true hguard.1.1
        have htokword : ∀ ch ∈ rest.take (runLen wordChar rest), wordChar ch = true := by
          rw [take_runLen]
          exact fun ch hch => List.mem_takeWhile_imp hch
        have htokne : rest.take (runLen wordChar rest) ≠ [] := by
          intro hnil
          have hlt : runLen wordChar rest ≤ rest.length := by
            unfold runLen
            exact (List.takeWhile_sublist wordChar).length_le
          have : (rest.take (runLen wordChar rest)).length = 0 := by rw [hnil]; rfl
          rw [List.length_take] at this
          omega
        have hrec' : wellMarked (rest.drop (runLen wordChar rest + 1)) = true := by
          unfold wellMarked
          rw [wellMarkedAux_stable _ rest.length _ (le_refl _)
            (by simp only [List.length_drop]; omega)]
          exact hrec
        have hout := ih (rest.drop (runLen wordChar rest + 1))
          (by simp only [List.length_cons] at hlen; simp only [List.length_drop]; omega) hrec'
        rcases normalizeRepl_empty _ htokne htokword with hdel | ⟨hkeep, hnd⟩
        · rw [hdel]
          simpa using hout
        · rw [hkeep]
          rw [show ('[' :: rest.take (runLen wordChar rest) ++ [']']) ++
              scanRun (markerStep (ReportService.normalizeRepl [] []))
                (rest.drop (runLen wordChar rest + 1)) =
              '[' :: (rest.take (runLen wordChar rest) ++ ']' ::
                scanRun (markerStep (ReportService.normalizeRepl [] []))
                  (rest.drop (runLen wordChar rest + 1))) from by simp]
          have hmh : markerHeadAt ('[' :: (rest.take (runLen wordChar rest) ++ ']' ::
              scanRun (markerStep (ReportService.normalizeRepl [] []))
                (rest.drop (runLen wordChar rest + 1)))) = false := by
            cases htk : rest.take (runLen wordChar rest) with
            | nil => exact absurd htk htokne
            | cons t0 ts =>
              rw [htk] at htokword hnd
              have hrb := digitsThenRB_word_false (t0 :: ts)
                (']' :: scanRun (markerStep (ReportService.normalizeRepl [] []))
                  (rest.drop (runLen wordChar rest + 1))) htokword hnd
              simp only [List.cons_append] at hrb ⊢
              simp only [markerHeadAt, hrb]
              simp
          have hrest2 : hasDigitMarker (rest.take (runLen wordChar rest) ++ ']' ::
              scanRun (markerStep (ReportService.normalizeRepl [] []))
                (rest.drop (runLen wordChar rest + 1))) = false := by
            rw [noLB_append _ _ (fun ch hch => wordChar_ne_lb ch (htokword ch hch))]
            simp only [hasDigitMarker]
            rw [markerHeadAt_ne ']' _ (by decide), hout]
            rfl
          simp only [hasDigitMarker]
          rw [hmh, hrest2]
          rfl
      · have hwrest : wellMarked rest = true := by
          unfold wellMarked at hw
          have hx : wellMarkedAux (rest.length + 1) (c :: rest) = true := by simpa using hw
          simp only [wellMarkedAux, if_neg hc] at hx
          exact hx
        rw [show markerStep (ReportService.normalizeRepl [] []) (c :: rest) = ([c], rest) from by
          simp only [markerStep, if_neg hc]]
        have hout := ih rest (by simp only [List.length_cons] at hlen; omega) hwrest
        show hasDigitMarker
          (c :: scanRun (markerStep (ReportService.normalizeRepl [] [])) rest) = false
        simp only [hasDigitMarker]
        rw [markerHeadAt_ne c _ hc, hout]
        rfl

theorem reindex_nil (x : Str) : ReportService.reindexCitationNumbers x [] = (x, []) := by
  unfold ReportService.reindexCitationNumbers
  rw [if_pos rfl]

theorem filter_nilcit (y : Str) :
    ReportService.filterAndReindexUsedCitations y [] = (y, []) := by
  unfold ReportService.filterAndReindexUsedCitations
  rw [if_pos (by simp)]

theorem renderPair_nilcit (request : ResearchRequest) (draft : FinalReportDraft)
    (md : Str) (hm : draft.markdown = some md) (hne : pyStrip md ≠ []) :
    ReportService.renderPair request draft [] =
      (ReportService.stripReferencesSection
        (ReportService.normalizeCitationMarkers (pyStrip md) []), []) := by
  unfold ReportService.renderPair
  rw [hm]
  simp only [hne, if_false, reindex_nil, filter_nilcit]

/-- C10: counterexample. `render` on the draft `[1[2]]` with an empty
citation list deletes the unknown inner marker and returns `[1]`, an
all-digit bracket marker surviving in the output. -/
theorem c10_counterexample :
    ReportService.render cReq c10Draft [] = ("[1]".toList) ∧
    hasDigitMarker (ReportService.render cReq c10Draft []) = true :=
  ⟨by rfl, by rfl⟩

/-- C10: amended. When the draft markdown is well-bracketed (every `[` opens
a complete 1..64 word-char marker), `render` with an empty citation list
returns a string with no all-digit bracket marker, retains no citations,
and appends no References section (the result is just the stripped body).
Nested brackets break the guarantee (see the counterexample). -/
theorem c10_render_empty (request : ResearchRequest) (draft : FinalReportDraft)
    (md : Str) (hm : draft.markdown = some md) (hne : pyStrip md ≠ [])
    (hw : wellMarked (pyStrip md) = true) :
    hasDigitMarker (ReportService.render request draft []) = false ∧
    (ReportService.renderPair request draft []).2 = [] ∧
    ReportService.render request draft [] =
      pyStrip (ReportService.renderPair request draft []).1 := by
  have h0 : hasDigitMarker
      (scanRun (markerStep (ReportService.normalizeRepl [] [])) (pyStrip md)) = false :=
    normScan_noMarker _ _ (le_refl _) hw
  have hnm : hasDigitMarker (ReportService.normalizeCitationMarkers (pyStrip md) []) = false := by
    show hasDigitMarker (pyStrip (scanRun blankStep (scanRun trailStep (scanRun collapseStep
      (scanRun (markerStep (ReportService.normalizeRepl [] [])) (pyStrip md)))))) = false
    rw [scanRun_id_pred collapseStep collapseStep_shrinks collapseStep_copy _ h0]
    apply pyStrip_noMarker
    apply scan_noMarker blankStep blankStep_shrinks blankStep_copyOrNL _ _ (le_refl _)
    apply scan_noMarker trailStep trailStep_shrinks trailStep_copyOrNL _ _ (le_refl _)
    exact h0
  have hbody : hasDigitMarker (ReportService.stripReferencesSection
      (ReportService.normalizeCitationMarkers (pyStrip md) [])) = false :=
    stripRefs_noMarker _ hnm
  have hpair := renderPair_nilcit request draft md hm hne
  have hrender : ReportService.render request draft [] =
      pyStrip (ReportService.renderPair request draft []).1 := by
    unfold ReportService.render
    rw [hpair]
    simp [ReportService.referenceLines, ReportService.sortCitations]
  refine ⟨?_, by rw [hpair], hrender⟩
  conv_lhs => rw [hrender, hpair]
  with_reducible exact pyStrip_noMarker _ hbody

/-- C10 witness: the amended theorem applied to the well-bracketed draft
`a [12] b [x7] c` with no citations. -/
theorem c10_render_empty_witness :
    pyStrip ("a [12] b [x7] c".toList) ≠ [] ∧
    hasDigitMarker (ReportService.render cReq c10WDraft []) = false ∧
    (ReportService.renderPair cReq c10WDraft []).2 = [] :=
  ⟨by decide,
   (c10_render_empty cReq c10WDraft ("a [12] b [x7] c".toList) rfl (by decide) (by decide)).1,
   (c10_render_empty cReq c10WDraft ("a [12] b [x7] c".toList) rfl (by decide) (by decide)).2.1⟩

/-! ### C2: render idempotence -/

theorem scanRun_id_inv (step : Str → Str × Str) (hs : StepShrinks step) (P : Str → Prop)
    (hstep : ∀ c rest, P (c :: rest) → step (c :: rest) = ([c], rest))
    (hprop : ∀ c rest, P (c :: rest) → P rest) :
    ∀ s, P s → scanRun step s = s := by
  intro s
  induction s with
  | nil => intro _; rfl
  | cons c rest ih =>
    intro h
    rw [scanRun_cons step hs, hstep c rest h]
    simp only [List.singleton_append]
    rw [ih (hprop c rest h)]

theorem noMarker_of_noLB (s : Str) (h : ∀ c ∈ s, c ≠ '[') : hasDigitMarker s = false := by
  induction s with
  | nil => rfl
  | cons c rest ih =>
    simp only [hasDigitMarker]
    rw [markerHeadAt_ne c rest (h c (by simp)), ih (fun d hd => h d (by simp [hd]))]
    rfl

theorem markerStep_copy (repl : Str → Str) (c : Char) (rest : Str) (h : c ≠ '[') :
    markerStep repl (c :: rest) = ([c], rest) := by
  simp only [markerStep, if_neg h]

theorem hasTrailWS_tail (c : Char) (rest : Str) (h : hasTrailWS (c :: rest) = false) :
    hasTrailWS rest = false := by
  cases rest with
  | nil => rfl
  | cons b r2 =>
    simp only [hasTrailWS, Bool.or_eq_false_iff] at h
    exact h.2

theorem trail_site :
    ∀ (s : Str), (∃ c rest, s = c :: rest ∧ spaceTabChar c = true) →
      headIs '\n' (s.drop (runLen spaceTabChar s)) = true → hasTrailWS s = true := by
  intro s
  induction s with
  | nil =>
    rintro ⟨c, rest, h, _⟩ _
    cases h
  | cons c rest ih =>
    rintro ⟨c', rest', hEq, hst⟩ hnl
    injection hEq with hc1 hc2
    rw [← hc1] at hst
    rw [runLen_cons, if_pos hst, List.drop_succ_cons] at hnl
    cases rest with
    | nil => simp [runLen, headIs] at hnl
    | cons d rest2 =>
      by_cases hd : spaceTabChar d = true
      · have hrec := ih ⟨d, rest2, rfl, hd⟩ hnl
        simp only [hasTrailWS]
        rw [hrec]
        simp
      · rw [runLen_cons, if_neg hd, List.drop_zero] at hnl
        have hdnl : d = '\n' := by simpa [headIs] using hnl
        simp only [hasTrailWS, Bool.or_eq_true, Bool.and_eq_true]
        exact Or.inl ⟨hst, by simp [hdnl]⟩

theorem trailStep_copy (c : Char) (rest : Str) (h : hasTrailWS (c :: rest) = false) :
    trailStep (c :: rest) = ([c], rest) := by
  simp only [trailStep]
  by_cases hst : spaceTabChar c = true
  · rw [if_pos hst]
    by_cases hnl : headIs '\n' ((c :: rest).drop (runLen spaceTabChar (c :: rest))) = true
    · rw [trail_site (c :: rest) ⟨c, rest, rfl, hst⟩ hnl] at h
      cases h
    · rw [if_neg hnl]
  · rw [if_neg hst]

theorem hasTripleNL_tail (c : Char) (rest : Str) (h : hasTripleNL (c :: rest) = false) :
    hasTripleNL rest = false := by
  cases rest with
  | nil => rfl
  | cons b r2 =>
    cases r2 with
    | nil => rfl
    | cons e r3 =>
      simp only [hasTripleNL, Bool.or_eq_false_iff] at h
      exact h.2

theorem runLen3_shape (s : Str) (h : 3 ≤ runLen newlineChar s) :
    ∃ t, s = '\n' :: '\n' :: '\n' :: t := by
  cases s with
  | nil => simp [runLen] at h
  | cons a s1 =>
    rw [runLen_cons] at h
    by_cases ha : newlineChar a = true
    · rw [if_pos ha] at h
      cases s1 with
      | nil => simp [runLen] at h
      | cons b s2 =>
        rw [runLen_cons] at h
        by_cases hb : newlineChar b = true
        · rw [if_pos hb] at h
          cases s2 with
          | nil => simp [runLen] at h
          | cons e s3 =>
            rw [runLen_cons] at h
            by_cases he : newlineChar e = true
            · refine ⟨s3, ?_⟩
              have ha' : a = '\n' := by simpa [newlineChar] using ha
              have hb' : b = '\n' := by simpa [newlineChar] using hb
              have he' : e = '\n' := by simpa [newlineChar] using he
              rw [ha', hb', he']
            · rw [if_neg he] at h
              omega
        · rw [if_neg hb] at h
          omega
    · rw [if_neg ha] at h
      omega

theorem blankStep_copy (c : Char) (rest : Str) (h : hasTripleNL (c :: rest) = false) :
    blankStep (c :: rest) = ([c], rest) := by
  simp only [blankStep]
  by_cases hc : c = '\n'
  · rw [if_pos hc]
    by_cases hr : 3 ≤ runLen newlineChar (c :: rest)
    · obtain ⟨t, ht⟩ := runLen3_shape _ hr
      have htriple : hasTripleNL (c :: rest) = true := by
        rw [ht]
        simp [hasTripleNL]
      rw [htriple] at h
      cases h
    · rw [if_neg hr]
  · rw [if_neg hc]

theorem render_nilcit (request : ResearchRequest) (draft : FinalReportDraft)
    (md : Str) (hm : draft.markdown = some md) (hne : pyStrip md ≠ []) :
    ReportService.render request draft [] =
      pyStrip (ReportService.stripReferencesSection
        (ReportService.normalizeCitationMarkers (pyStrip md) [])) := by
  have hpair := renderPair_nilcit request draft md hm hne
  unfold ReportService.render
  rw [hpair]
  simp [ReportService.referenceLines, ReportService.sortCitations]

theorem splitlinesAux_ne_nil :
    ∀ (fuel : Nat) (acc s : Str), acc ≠ [] ∨ s ≠ [] → splitlinesAux fuel acc s ≠ [] := by
  intro fuel
  induction fuel with
  | zero => intro acc s _; simp [splitlinesAux]
  | succ f ih =>
    intro acc s h
    cases s with
    | nil =>
      simp only [splitlinesAux]
      rcases h with ha | hs
      · rw [if_neg ha]; simp
      · exact absurd rfl hs
    | cons c rest =>
      simp only [splitlinesAux]
      by_cases hcr : c = '\x0d'
      · rw [if_pos hcr]
        split <;> simp
      · rw [if_neg hcr]
        by_cases hlb : lineBreakChar c = true
        · rw [if_pos hlb]; simp
        · rw [if_neg hlb]
          exact ih (c :: acc) rest (Or.inl (by simp))

theorem revHead_cons (c : Char) (rest : Str) (hne : rest ≠ []) :
    (c :: rest).reverse.head? = rest.reverse.head? := by
  rw [List.reverse_cons, List.head?_append]
  cases hr : rest.reverse with
  | nil => exact absurd (by simpa using congrArg List.reverse hr) hne
  | cons h t => rfl

theorem joinNL_splitlinesAux :
    ∀ (fuel : Nat) (acc s : Str), s.length < fuel →
      (∀ c ∈ s, lineBreakChar c = true → c = '\n') →
      s.reverse.head? ≠ some '\n' →
      joinNL (splitlinesAux fuel acc s) = acc.reverse ++ s := by
  intro fuel
  induction fuel with
  | zero => intro acc s h _ _; omega
  | succ f ih =>
    intro acc s hlen hbr hlast
    cases s with
    | nil =>
      simp only [splitlinesAux]
      by_cases ha : acc = []
      · rw [if_pos ha, ha]; rfl
      · rw [if_neg ha]
        simp [joinNL]
    | cons c rest =>
      simp only [splitlinesAux]
      by_cases hcr : c = '\x0d'
      · exfalso
        have hcn := hbr c (by simp) (by rw [hcr]; decide)
        rw [hcr] at hcn
        exact absurd hcn (by decide)
      · rw [if_neg hcr]
        by_cases hlb : lineBreakChar c = true
        · rw [if_pos hlb]
          have hcn : c = '\n' := hbr c (by simp) hlb
          have hrestne : rest ≠ [] := by
            intro hnil
            rw [hnil, hcn] at hlast
            exact hlast rfl
          have hlast' : rest.reverse.head? ≠ some '\n' := by
            rw [← revHead_cons c rest hrestne]
            exact hlast
          have hne2 := splitlinesAux_ne_nil f [] rest (Or.inr hrestne)
          cases hsp : splitlinesAux f [] rest with
          | nil => exact absurd hsp hne2
          | cons m ms =>
            rw [show joinNL (acc.reverse :: m :: ms) =
                acc.reverse ++ '\n' :: joinNL (m :: ms) from rfl,
              ← hsp,
              ih [] rest (by simp only [List.length_cons] at hlen; omega)
                (fun d hd hb => hbr d (by simp [hd]) hb) hlast']
            simp [hcn]
        · rw [if_neg hlb]
          rw [ih (c :: acc) rest (by simp only [List.length_cons] at hlen; omega)
            (fun d hd hb => hbr d (by simp [hd]) hb) ?_]
          · simp
          · cases hrn : rest with
            | nil => simp
            | cons d r2 =>
              rw [← hrn, ← revHead_cons c rest (by rw [hrn]; simp)]
              exact hlast

theorem strip_last_not_space (md : Str) (h4 : pyStrip md = md) (h5 : md ≠ []) :
    ∀ c, md.reverse.head? = some c → pySpaceChar c = false := by
  intro c hc
  by_contra hsp
  rw [Bool.not_eq_false] at hsp
  have hlen : ((md.dropWhile pySpaceChar).reverse.dropWhile pySpaceChar).reverse.length =
      md.length := by
    rw [show ((md.dropWhile pySpaceChar).reverse.dropWhile pySpaceChar).reverse =
      pyStrip md from rfl, h4]
  have hle1 : (md.dropWhile pySpaceChar).length ≤ md.length :=
    (List.dropWhile_suffix _).length_le
  have hle2 : ((md.dropWhile pySpaceChar).reverse.dropWhile pySpaceChar).length ≤
      (md.dropWhile pySpaceChar).reverse.length :=
    (List.dropWhile_suffix _).length_le
  simp only [List.length_reverse] at hlen hle2
  have heq1 : md.dropWhile pySpaceChar = md :=
    (List.dropWhile_suffix pySpaceChar).eq_of_length (by omega)
  have h4' := h4
  unfold pyStrip at h4'
  rw [heq1] at h4'
  have heq2 : md.reverse.dropWhile pySpaceChar = md.reverse := by
    have := congrArg List.reverse h4'
    simpa using this
  cases hr : md.reverse with
  | nil => exact h5 (by simpa using congrArg List.reverse hr)
  | cons c0 t =>
    rw [hr] at hc heq2
    have hc0 : c0 = c := by
      simpa using hc
    rw [List.dropWhile_cons, if_pos (by rw [hc0]; exact hsp)] at heq2
    have hlt : (List.dropWhile pySpaceChar t).length ≤ t.length :=
      (List.dropWhile_suffix _).length_le
    have h2 := congrArg List.length heq2
    simp only [List.length_cons] at h2
    omega

theorem stripRefs_id (md : Str)
    (h3 : ∀ c ∈ md, lineBreakChar c = true → c = '\n')
    (h4 : pyStrip md = md) (h5 : md ≠ [])
    (h8 : ∀ l ∈ splitlinesPy md, ReportService.refsHeadLine l = false) :
    ReportService.stripReferencesSection md = md := by
  unfold ReportService.stripReferencesSection
  rw [List.takeWhile_eq_self_iff.mpr (fun l hl => by
    rw [Bool.not_eq_true']
    exact h8 l hl)]
  have hlast : md.reverse.head? ≠ some '\n' := by
    intro hh
    have := strip_last_not_space md h4 h5 '\n' hh
    exact absurd this (by decide)
  have hjoin : joinNL (splitlinesPy md) = md := by
    unfold splitlinesPy
    have := joinNL_splitlinesAux (md.length + 1) [] md (by omega) h3 hlast
    simpa using this
  rw [hjoin, h4]

theorem normalize_id (md : Str) (h1 : ∀ c ∈ md, c ≠ '[') (h4 : pyStrip md = md)
    (h6 : hasTrailWS md = false) (h7 : hasTripleNL md = false) :
    ReportService.normalizeCitationMarkers md [] = md := by
  show pyStrip (scanRun blankStep (scanRun trailStep (scanRun collapseStep
    (scanRun (markerStep (ReportService.normalizeRepl [] [])) md)))) = md
  have hnomark : hasDigitMarker md = false := noMarker_of_noLB md h1
  rw [scanRun_id_inv _ (markerStep_shrinks _) (fun s => ∀ c ∈ s, c ≠ '[')
      (fun c rest hh => markerStep_copy _ c rest (hh c (by simp)))
      (fun c rest hh d hd => hh d (by simp [hd])) md h1]
  rw [scanRun_id_pred collapseStep collapseStep_shrinks collapseStep_copy md hnomark]
  rw [scanRun_id_inv trailStep trailStep_shrinks (fun s => hasTrailWS s = false)
      trailStep_copy hasTrailWS_tail md h6]
  rw [scanRun_id_inv blankStep blankStep_shrinks (fun s => hasTripleNL s = false)
      blankStep_copy hasTripleNL_tail md h7]
  exact h4

/-- C2: counterexample. With citation ids 1 and 3 the first render renumbers
the body to `[1] [2]`; a second render of that output with the same citation
list deletes the marker `[2]` (2 is not an original id), so render is not a
fixed point of its own output. -/
theorem c2_counterexample :
    ReportService.render cReq c2Draft c2Cits =
      (("a [1] b [2]\n\n## References\n\n[1] p1. \x22t1\x22. u1 (accessed d)" ++
        "\n[2] p3. \x22t3\x22. u3 (accessed d)").toList) ∧
    ReportService.render cReq
        (redraft c2Draft (ReportService.render cReq c2Draft c2Cits)) c2Cits =
      ("a [1] b\n\n## References\n\n[1] p1. \x22t1\x22. u1 (accessed d)".toList) ∧
    ReportService.render cReq
        (redraft c2Draft (ReportService.render cReq c2Draft c2Cits)) c2Cits ≠
      ReportService.render cReq c2Draft c2Cits := by
  have hr1 : ReportService.render cReq c2Draft c2Cits =
      (("a [1] b [2]\n\n## References\n\n[1] p1. \x22t1\x22. u1 (accessed d)" ++
        "\n[2] p3. \x22t3\x22. u3 (accessed d)").toList) := by rfl
  have hr2 : ReportService.render cReq
      (redraft c2Draft (ReportService.render cReq c2Draft c2Cits)) c2Cits =
      ("a [1] b\n\n## References\n\n[1] p1. \x22t1\x22. u1 (accessed d)".toList) := by rfl
  refine ⟨hr1, hr2, ?_⟩
  rw [hr2, hr1]
  decide

/-- C2: amended. When the citation list is empty and the draft markdown is
bracket-free, uses only `\n` among line-break characters, is strip-stable and
non-empty, has no trailing space-tab before a newline, no triple newline, and
no line opening a References heading, `render` returns the markdown unchanged;
hence a second render of the output (as the next draft's markdown, with the
same empty citation list) is a fixed point. With a non-empty citation list
idempotence fails (see the counterexample). -/
theorem c2_render_amended (request : ResearchRequest) (draft : FinalReportDraft) (md : Str)
    (hm : draft.markdown = some md)
    (h1 : ∀ c ∈ md, c ≠ '[')
    (h3 : ∀ c ∈ md, lineBreakChar c = true → c = '\n')
    (h4 : pyStrip md = md) (h5 : md ≠ [])
    (h6 : hasTrailWS md = false) (h7 : hasTripleNL md = false)
    (h8 : ∀ l ∈ splitlinesPy md, ReportService.refsHeadLine l = false) :
    ReportService.render request draft [] = md ∧
    ∀ draft2 : FinalReportDraft,
      draft2.markdown = some (ReportService.render request draft []) →
      ReportService.render request draft2 [] = ReportService.render request draft [] := by
  have hne : pyStrip md ≠ [] := by rw [h4]; exact h5
  have hrender : ∀ (d : FinalReportDraft), d.markdown = some md →
      ReportService.render request d [] = md := by
    intro d hd
    have h := render_nilcit request d md hd hne
    rw [h4] at h
    rw [h, normalize_id md h1 h4 h6 h7, stripRefs_id md h3 h4 h5 h8, h4]
  have hmain := hrender draft hm
  refine ⟨hmain, ?_⟩
  intro draft2 hd2
  rw [hmain] at hd2
  rw [hrender draft2 hd2, hmain]

/-- C2 witness: the amended theorem applied to the canonical two-line
markdown `hello\nworld` with no citations. -/
theorem c2_render_amended_witness :
    (∀ c ∈ c2WMd, c ≠ '[') ∧
    ReportService.render cReq c2WDraft [] = c2WMd :=
  ⟨by decide,
   (c2_render_amended cReq c2WDraft c2WMd rfl (by decide) (by decide) (by decide)
     (by decide) (by decide) (by decide) (by decide)).1⟩

end Shandu
